import Mathlib

/-!
# UTM-Tracker: redirect resolution and click tracking

A shallow embedding of the Go sources of the UTM-Tracker repository

* `internal/models/url_mapping.go`      (namespace `models`)
* `internal/database/postgres.go`       (namespace `database`)
* `internal/tracking/logger.go`, `internal/tracking/tracking.go` (namespace `tracking`)
* `internal/handlers/redirect_handler.go` (namespace `handlers`)
* `cmd/frontend-proxy/main.go`          (namespace `frontendproxy`)

together with the parts of the Go standard library (`strings`, `unicode/utf8`,
`net/url`, `net`, `net/netip`, `path`, `net/textproto`, `net/http`, as of Go 1.22) and
of gin (`Context.JSON`, `Context.String`, `Context.Redirect`) that those sources call.

Conventions of the embedding.

* A Go `string` is a sequence of bytes: `GoString := List Byte`, `Byte := Fin 256`.
  `go "text"` is the UTF-8 encoding of a literal. A Go `rune` is a `Nat`.
* A Go function returning `(T, error)` returns `Option T` / `Except`; `nil` results
  are `none`.
* `time.Now()` is an explicit argument `now`; a `time.Time` is the signed number of
  nanoseconds since the zero instant (January 1, year 1, 00:00:00 UTC), so that
  `IsZero` is `t = 0` and `Before` is `<`.
* The relational store behind gorm is explicit state: tables are lists of rows,
  and the outcome of an insert (`createErr`) is part of the store handle.
* The Resolution Service handler returns a `Response` value recording the call it makes
  on its `*gin.Context` (`c.Redirect`, `c.JSON`, `c.String`) with its arguments. The
  Edge Proxy handler returns what the call sends to the client (`gin.Written`), through
  the models of gin's renderers and of `net/http.Redirect`.
-/

namespace UTMTracker

/-! ## Go strings -/

/-- One byte of a Go string. -/
abbrev Byte := Fin 256

/-- Go's `string`: an immutable sequence of bytes. -/
abbrev GoString := List Byte

/-- The byte of an ASCII character literal. -/
def ch (c : Char) : Byte := Fin.ofNat c.toNat

/-- The UTF-8 bytes of a string literal. -/
def go (s : String) : GoString :=
  (s.data.flatMap String.utf8EncodeChar).map (fun b => b.val)

/-- Byte test `c == 'x'`. -/
def isCh (c : Byte) (x : Char) : Bool := c.val == x.toNat

/-- Byte test `lo <= c && c <= hi`. -/
def inRange (lo hi : Char) (c : Byte) : Bool := lo.toNat ≤ c.val && c.val ≤ hi.toNat

/-- Byte test `c` is one of the characters of `set`. -/
def oneOf (set : List Char) (c : Byte) : Bool := set.any (fun x => isCh c x)

namespace strings

/-- Go `strings.HasPrefix(s, pre)`. -/
def HasPrefix : GoString → GoString → Bool
  | _, [] => true
  | [], _ :: _ => false
  | c :: s, p :: pre => c == p && HasPrefix s pre

/-- Go `strings.HasSuffix(s, suf)`. -/
def HasSuffix (s suf : GoString) : Bool := HasPrefix s.reverse suf.reverse

/-- Go `strings.Contains(s, substr)`. -/
def Contains : GoString → GoString → Bool
  | [], substr => substr.isEmpty
  | c :: s, substr => HasPrefix (c :: s) substr || Contains s substr

/-- Go `strings.Index(s, substr)`: the offset of the first occurrence, `none` for `-1`. -/
def Index : GoString → GoString → Option Nat
  | [], substr => if substr.isEmpty then some 0 else none
  | c :: s, substr =>
    if HasPrefix (c :: s) substr then some 0 else (Index s substr).map (· + 1)

/-- Go `strings.IndexByte(s, c)`. -/
def IndexByte : GoString → Byte → Option Nat
  | [], _ => none
  | b :: s, c => if b = c then some 0 else (IndexByte s c).map (· + 1)

/-- Go `strings.LastIndex(s, sep)` for a one-byte separator. -/
def LastIndexByte (s : GoString) (c : Byte) : Option Nat :=
  (IndexByte s.reverse c).map (fun i => s.length - 1 - i)

/-- Go `strings.Count(s, sep)` for a one-byte separator. -/
def CountByte (s : GoString) (c : Byte) : Nat := s.count c

/-- Go `strings.Cut(s, sep)` for a one-byte separator: `(before, after, found)`. -/
def Cut : GoString → Byte → GoString × GoString × Bool
  | [], _ => ([], [], false)
  | b :: s, sep =>
    if b = sep then ([], s, true)
    else
      let r := Cut s sep
      (b :: r.1, r.2.1, r.2.2)

end strings

/-! ## unicode/utf8 and unicode -/

namespace utf8

/-- Go `utf8.RuneError`. -/
def RuneError : Nat := 0xFFFD

/-- Go `utf8.RuneSelf`. -/
def RuneSelf : Nat := 0x80

/-- The multi-byte part of Go `utf8.DecodeRuneInString`: the first byte `b0` announces
a rune of `sz` bytes whose second byte must lie in `lo..hi` (the entry of
`acceptRanges`); continuation bytes lie in `0x80..0xBF`. Masks and shifts are written
as `%` and `*`. -/
def decodeMulti (b0 sz lo hi : Nat) (rest : GoString) : Nat × Nat :=
  if rest.length + 1 < sz then (RuneError, 1)
  else
    match rest with
    | [] => (RuneError, 1)
    | s1 :: rest1 =>
      let b1 := s1.val
      if b1 < lo ∨ hi < b1 then (RuneError, 1)
      else if sz ≤ 2 then ((b0 % 0x20) * 0x40 + b1 % 0x40, 2)
      else
        match rest1 with
        | [] => (RuneError, 1)
        | s2 :: rest2 =>
          let b2 := s2.val
          if b2 < 0x80 ∨ 0xBF < b2 then (RuneError, 1)
          else if sz ≤ 3 then ((b0 % 0x10) * 0x1000 + (b1 % 0x40) * 0x40 + b2 % 0x40, 3)
          else
            match rest2 with
            | [] => (RuneError, 1)
            | s3 :: _ =>
              let b3 := s3.val
              if b3 < 0x80 ∨ 0xBF < b3 then (RuneError, 1)
              else ((b0 % 0x08) * 0x40000 + (b1 % 0x40) * 0x1000
                      + (b2 % 0x40) * 0x40 + b3 % 0x40, 4)

/-- Go `utf8.DecodeRuneInString`: the first rune of `s` and its width in bytes.
The table-driven source (`first`, `acceptRanges`) is written out as the ranges the
tables hold. -/
def DecodeRune (s : GoString) : Nat × Nat :=
  match s with
  | [] => (RuneError, 0)
  | s0 :: rest =>
    let b0 := s0.val
    if b0 < 0x80 then (b0, 1)
    else if b0 < 0xC2 ∨ 0xF4 < b0 then (RuneError, 1)
    else
      decodeMulti b0
        (if b0 < 0xE0 then 2 else if b0 < 0xF0 then 3 else 4)
        (if b0 = 0xE0 then 0xA0 else if b0 = 0xF0 then 0x90 else 0x80)
        (if b0 = 0xED then 0x9F else if b0 = 0xF4 then 0x8F else 0xBF)
        rest

/-- The runes of a `for _, r := range s` loop, with the offset-advancing loop run for
at most `fuel` steps (each step consumes at least one byte). -/
def runesFuel : Nat → GoString → List Nat
  | 0, _ => []
  | _ + 1, [] => []
  | fuel + 1, c :: s =>
    let d := DecodeRune (c :: s)
    d.1 :: runesFuel fuel ((c :: s).drop d.2)

/-- The runes of a `for _, r := range s` loop. -/
def runes (s : GoString) : List Nat := runesFuel s.length s

/-- Go `utf8.AppendRune(nil, r)`: the UTF-8 encoding of a rune; surrogates and
out-of-range values are encoded as `RuneError`. -/
def EncodeRune (r : Nat) : GoString :=
  if r < 0x80 then [Fin.ofNat r]
  else if r < 0x800 then [Fin.ofNat (0xC0 + r / 0x40), Fin.ofNat (0x80 + r % 0x40)]
  else if 0x10FFFF < r ∨ (0xD800 ≤ r ∧ r ≤ 0xDFFF) then [0xEF, 0xBF, 0xBD]
  else if r < 0x10000 then
    [Fin.ofNat (0xE0 + r / 0x1000), Fin.ofNat (0x80 + (r / 0x40) % 0x40),
     Fin.ofNat (0x80 + r % 0x40)]
  else
    [Fin.ofNat (0xF0 + r / 0x40000), Fin.ofNat (0x80 + (r / 0x1000) % 0x40),
     Fin.ofNat (0x80 + (r / 0x40) % 0x40), Fin.ofNat (0x80 + r % 0x40)]

end utf8

namespace unicode

/-- Go `unicode.IsSpace`: the Latin-1 switch, and beyond Latin-1 the `White_Space`
range table. -/
def IsSpace (r : Nat) : Bool :=
  if r ≤ 0xFF then
    r == 0x09 || r == 0x0A || r == 0x0B || r == 0x0C || r == 0x0D || r == 0x20
      || r == 0x85 || r == 0xA0
  else
    r == 0x1680 || (0x2000 ≤ r && r ≤ 0x200A) || r == 0x2028 || r == 0x2029
      || r == 0x202F || r == 0x205F || r == 0x3000

/-- Go `unicode.ToLower`. The ASCII branch is the source's; beyond ASCII the source
consults the Unicode case tables, which the embedding takes as the argument
`caseTable`. -/
def ToLower (caseTable : Nat → Nat) (r : Nat) : Nat :=
  if r ≤ 0x7F then
    if 'A'.toNat ≤ r ∧ r ≤ 'Z'.toNat then r + ('a'.toNat - 'A'.toNat) else r
  else caseTable r

end unicode

namespace strings

/-- Go `strings.ToLower`: bytewise on an all-ASCII string, otherwise
`strings.Map(unicode.ToLower, s)`, which re-encodes every decoded rune after mapping
it (an invalid byte decodes to `RuneError`). -/
def ToLower (caseTable : Nat → Nat) (s : GoString) : GoString :=
  if s.all (fun c => c.val < utf8.RuneSelf) then
    s.map (fun c => if inRange 'A' 'Z' c then c + (ch 'a' - ch 'A') else c)
  else
    (utf8.runes s).flatMap (fun r => utf8.EncodeRune (unicode.ToLower caseTable r))

/-- The part of `s` left after removing leading bytes while the decoded rune at the
front is white space (`strings.TrimLeftFunc(s, unicode.IsSpace)`), `fuel` bounding
the loop. -/
def trimLeftSpace : Nat → GoString → GoString
  | 0, s => s
  | _ + 1, [] => []
  | fuel + 1, c :: s =>
    let d := utf8.DecodeRune (c :: s)
    if unicode.IsSpace d.1 then trimLeftSpace fuel ((c :: s).drop d.2) else c :: s

/-- Go `utf8.DecodeLastRuneInString`: the last rune of `s` and its width. The source
walks back from the last byte over at most `UTFMax = 4` bytes to the nearest byte
that starts a rune (`RuneStart`: not of the form `10xxxxxx`), decodes from there, and
answers `RuneError` of width one unless that rune ends exactly at the end of `s`.
`k` is the distance of the chosen start from the end. -/
def DecodeLastRune (s : GoString) : Nat × Nat :=
  let n := s.length
  match s.reverse with
  | [] => (utf8.RuneError, 0)
  | last :: _ =>
    if last.val < utf8.RuneSelf then (last.val, 1)
    else
      let runeStart := fun (k : Nat) =>
        match s.drop (n - k) with
        | b :: _ => decide (b.val / 0x40 ≠ 2)
        | [] => false
      let k :=
        match [2, 3, 4].filter (fun k => decide (k ≤ n) && runeStart k) with
        | k :: _ => k
        | [] => if n ≤ 4 then n else 5
      let d := utf8.DecodeRune (s.drop (n - k))
      if d.2 ≠ k then (utf8.RuneError, 1) else d

/-- The part of `s` left after removing trailing white-space runes
(`strings.TrimRightFunc(s, unicode.IsSpace)`). -/
def trimRightSpace : Nat → GoString → GoString
  | 0, s => s
  | fuel + 1, s =>
    if s.isEmpty then s
    else
      let d := DecodeLastRune s
      if unicode.IsSpace d.1 then trimRightSpace fuel (s.take (s.length - d.2)) else s

/-- Go `strings.TrimSpace`. The source scans ASCII bytes directly and falls back to
`TrimFunc(s, unicode.IsSpace)` at the first non-ASCII byte; on ASCII bytes the two
agree, so the whole function is `TrimRightFunc` after `TrimLeftFunc`. -/
def TrimSpace (s : GoString) : GoString :=
  let l := trimLeftSpace s.length s
  trimRightSpace l.length l

/-- Go `strings.IndexFunc(s, f)`: the byte offset of the first rune satisfying `f`,
`none` for `-1`. -/
def IndexFuncFuel (f : Nat → Bool) : Nat → GoString → Option Nat
  | 0, _ => none
  | _ + 1, [] => none
  | fuel + 1, c :: s =>
    let d := utf8.DecodeRune (c :: s)
    if f d.1 then some 0
    else (IndexFuncFuel f fuel ((c :: s).drop d.2)).map (· + d.2)

/-- Go `strings.IndexFunc`. -/
def IndexFunc (s : GoString) (f : Nat → Bool) : Option Nat := IndexFuncFuel f s.length s

end strings

/-! ## net/url -/

namespace url

/-- The `encoding` modes of `net/url`. -/
inductive encoding where
  | encodePath
  | encodePathSegment
  | encodeHost
  | encodeZone
  | encodeUserPassword
  | encodeQueryComponent
  | encodeFragment
  deriving DecidableEq, Repr

open encoding

/-- Go `ishex`. -/
def ishex (c : Byte) : Bool := inRange '0' '9' c || inRange 'a' 'f' c || inRange 'A' 'F' c

/-- Go `unhex`. -/
def unhex (c : Byte) : Nat :=
  if inRange '0' '9' c then c.val - '0'.toNat
  else if inRange 'a' 'f' c then c.val - 'a'.toNat + 10
  else if inRange 'A' 'F' c then c.val - 'A'.toNat + 10
  else 0

/-- Go `shouldEscape(c, mode)`: whether the byte must be escaped when it appears in the
given part of a URL. -/
def shouldEscape (c : Byte) (mode : encoding) : Bool :=
  if inRange 'a' 'z' c || inRange 'A' 'Z' c || inRange '0' '9' c then false
  else if (mode == encodeHost || mode == encodeZone)
      && oneOf ['!', '$', '&', '\'', '(', ')', '*', '+', ',', ';', '=', ':', '[', ']',
                '<', '>', '"'] c then false
  else if oneOf ['-', '_', '.', '~'] c then false
  else if oneOf ['$', '&', '+', ',', '/', ':', ';', '=', '?', '@'] c
      && mode != encodeHost && mode != encodeZone then
    match mode with
    | encodePath => isCh c '?'
    | encodePathSegment => isCh c '/' || isCh c ';' || isCh c ',' || isCh c '?'
    | encodeUserPassword => isCh c '@' || isCh c '/' || isCh c '?' || isCh c ':'
    | encodeQueryComponent => true
    | encodeFragment => false
    | _ => true
  else if mode == encodeFragment && oneOf ['!', '(', ')', '*'] c then false
  else true

/-- Go `unescape(s, mode)`: undo `%XX` escapes (and `+` in query components); `none`
for an `EscapeError` or `InvalidHostError`. The source validates the whole string in
a first loop and decodes in a second one; here both happen in one pass, which fails
exactly when the first loop finds an error. -/
def unescape : GoString → encoding → Option GoString
  | [], _ => some []
  | c :: s, mode =>
    if isCh c '%' then
      match s with
      | h1 :: h2 :: rest =>
        if !ishex h1 || !ishex h2 then none
        else if mode == encodeHost && decide (unhex h1 < 8) && [c, h1, h2] != go "%25" then none
        else if mode == encodeZone && [c, h1, h2] != go "%25"
            && decide (unhex h1 * 16 + unhex h2 ≠ ' '.toNat)
            && shouldEscape (Fin.ofNat (unhex h1 * 16 + unhex h2)) encodeHost then none
        else (unescape rest mode).map (fun t => Fin.ofNat (unhex h1 * 16 + unhex h2) :: t)
      | _ => none
    else if isCh c '+' then
      (unescape s mode).map
        (fun t => (if mode == encodeQueryComponent then ch ' ' else ch '+') :: t)
    else if (mode == encodeHost || mode == encodeZone) && decide (c.val < 0x80)
        && shouldEscape c encodeHost then none
    else (unescape s mode).map (fun t => c :: t)

/-- Go `upperhex[n]`. -/
def upperhex (n : Nat) : Byte := (go "0123456789ABCDEF").getD n 0

/-- Go `escape(s, mode)`: the counting loop of the source only sizes the buffer; the
bytes written are those of its last loop. -/
def escape (s : GoString) (mode : encoding) : GoString :=
  s.flatMap (fun c =>
    if isCh c ' ' && mode == encodeQueryComponent then [ch '+']
    else if shouldEscape c mode then [ch '%', upperhex (c.val / 16), upperhex (c.val % 16)]
    else [c])

/-- Go `url.QueryUnescape`. -/
def QueryUnescape (s : GoString) : Option GoString := unescape s encodeQueryComponent

/-- Go `url.QueryEscape`. -/
def QueryEscape (s : GoString) : GoString := escape s encodeQueryComponent

/-- Go `url.Userinfo`. -/
structure Userinfo where
  username : GoString
  password : GoString
  passwordSet : Bool
  deriving DecidableEq, Repr

/-- Go `url.URL`. -/
structure URL where
  Scheme : GoString := []
  Opaque : GoString := []
  User : Option Userinfo := none
  Host : GoString := []
  Path : GoString := []
  RawPath : GoString := []
  OmitHost : Bool := false
  ForceQuery : Bool := false
  RawQuery : GoString := []
  Fragment : GoString := []
  RawFragment : GoString := []
  deriving DecidableEq, Repr

/-- Go `getScheme`, at offset `i` of `rawURL` with `rest` still to scan: `(scheme, path)`,
`none` for "missing protocol scheme". -/
def getSchemeLoop (rawURL : GoString) : Nat → GoString → Option (GoString × GoString)
  | _, [] => some ([], rawURL)
  | i, c :: rest =>
    if inRange 'a' 'z' c || inRange 'A' 'Z' c then getSchemeLoop rawURL (i + 1) rest
    else if inRange '0' '9' c || isCh c '+' || isCh c '-' || isCh c '.' then
      if i = 0 then some ([], rawURL) else getSchemeLoop rawURL (i + 1) rest
    else if isCh c ':' then
      if i = 0 then none else some (rawURL.take i, rest)
    else some ([], rawURL)

/-- Go `getScheme`. -/
def getScheme (rawURL : GoString) : Option (GoString × GoString) :=
  getSchemeLoop rawURL 0 rawURL

/-- Go `stringContainsCTLByte`. -/
def stringContainsCTLByte (s : GoString) : Bool :=
  s.any (fun b => decide (b.val < ' '.toNat) || decide (b.val = 0x7f))

/-- Go `validOptionalPort`. -/
def validOptionalPort (port : GoString) : Bool :=
  match port with
  | [] => true
  | c :: digits => isCh c ':' && digits.all (fun b => inRange '0' '9' b)

/-- Go `validUserinfo`. -/
def validUserinfo (s : GoString) : Bool :=
  (utf8.runes s).all (fun r =>
    ('A'.toNat ≤ r && r ≤ 'Z'.toNat) || ('a'.toNat ≤ r && r ≤ 'z'.toNat)
      || ('0'.toNat ≤ r && r ≤ '9'.toNat)
      || ['-', '.', '_', ':', '~', '!', '$', '&', '\'', '(', ')', '*', '+', ',', ';', '=',
          '%', '@'].any (fun x => r == x.toNat))

/-- Go `parseHost`. -/
def parseHost (host : GoString) : Option GoString :=
  if strings.HasPrefix host (go "[") then
    match strings.LastIndexByte host (ch ']') with
    | none => none
    | some i =>
      if !validOptionalPort (host.drop (i + 1)) then none
      else
        match strings.Index (host.take i) (go "%25") with
        | some zone =>
          match unescape (host.take zone) encodeHost,
                unescape ((host.take i).drop zone) encodeZone,
                unescape (host.drop i) encodeHost with
          | some host1, some host2, some host3 => some (host1 ++ host2 ++ host3)
          | _, _, _ => none
        | none => unescape host encodeHost
  else
    match strings.LastIndexByte host (ch ':') with
    | some i => if !validOptionalPort (host.drop i) then none else unescape host encodeHost
    | none => unescape host encodeHost

/-- Go `parseAuthority`: `(user, host)`. -/
def parseAuthority (authority : GoString) : Option (Option Userinfo × GoString) :=
  match strings.LastIndexByte authority (ch '@') with
  | none => (parseHost authority).map (fun host => (none, host))
  | some i =>
    match parseHost (authority.drop (i + 1)) with
    | none => none
    | some host =>
      let userinfo := authority.take i
      if !validUserinfo userinfo then none
      else if !strings.Contains userinfo (go ":") then
        (unescape userinfo encodeUserPassword).map
          (fun u => (some { username := u, password := [], passwordSet := false }, host))
      else
        let c := strings.Cut userinfo (ch ':')
        match unescape c.1 encodeUserPassword, unescape c.2.1 encodeUserPassword with
        | some username, some password =>
          some (some { username := username, password := password, passwordSet := true }, host)
        | _, _ => none

/-- Go `(*URL).setPath`. -/
def URL.setPath (u : URL) (p : GoString) : Option URL :=
  (unescape p encodePath).map (fun path =>
    { u with Path := path, RawPath := if p == escape path encodePath then [] else p })

/-- Go `(*URL).setFragment`. -/
def URL.setFragment (u : URL) (f : GoString) : Option URL :=
  (unescape f encodeFragment).map (fun frag =>
    { u with Fragment := frag, RawFragment := if f == escape frag encodeFragment then [] else f })

/-- Go `parse(rawURL, viaRequest)`. The scheme is lower-cased with `strings.ToLower`;
`getScheme` only returns ASCII letters, digits, `+`, `-` and `.`, so the call takes the
ASCII branch and no case table is consulted. -/
def parse (rawURL : GoString) (viaRequest : Bool) : Option URL :=
  if stringContainsCTLByte rawURL then none
  else if rawURL.isEmpty && viaRequest then none
  else if rawURL == go "*" then some { Path := go "*" }
  else
    match getScheme rawURL with
    | none => none
    | some (scheme, rest0) =>
      let scheme := strings.ToLower (fun r => r) scheme
      let split : GoString × Bool × GoString :=
        if strings.HasSuffix rest0 (go "?") && strings.CountByte rest0 (ch '?') == 1 then
          (rest0.take (rest0.length - 1), true, [])
        else
          let c := strings.Cut rest0 (ch '?')
          (c.1, false, c.2.1)
      let rest := split.1
      let url : URL := { Scheme := scheme, ForceQuery := split.2.1, RawQuery := split.2.2 }
      if !strings.HasPrefix rest (go "/") && !scheme.isEmpty then
        some { url with Opaque := rest }
      else if !strings.HasPrefix rest (go "/") && viaRequest then none
      else if !strings.HasPrefix rest (go "/")
          && strings.Contains (strings.Cut rest (ch '/')).1 (go ":") then none
      else if (!scheme.isEmpty || (!viaRequest && !strings.HasPrefix rest (go "///")))
          && strings.HasPrefix rest (go "//") then
        let auth0 := rest.drop 2
        let authority := (strings.Cut auth0 (ch '/')).1
        let rest1 := auth0.drop authority.length
        match parseAuthority authority with
        | none => none
        | some (user, host) => URL.setPath { url with User := user, Host := host } rest1
      else if !scheme.isEmpty && strings.HasPrefix rest (go "/") then
        URL.setPath { url with OmitHost := true } rest
      else URL.setPath url rest

/-- Go `url.Parse`. -/
def Parse (rawURL : GoString) : Option URL :=
  let c := strings.Cut rawURL (ch '#')
  match parse c.1 false with
  | none => none
  | some url => if c.2.1.isEmpty then some url else url.setFragment c.2.1

/-- Go `url.ParseRequestURI`. -/
def ParseRequestURI (rawURL : GoString) : Option URL := parse rawURL true

/-- Go `validEncoded`. -/
def validEncoded (s : GoString) (mode : encoding) : Bool :=
  s.all (fun c =>
    oneOf ['!', '$', '&', '\'', '(', ')', '*', '+', ',', ';', '=', ':', '@', '[', ']', '%'] c
      || !shouldEscape c mode)

/-- Go `(*URL).EscapedPath`. -/
def URL.EscapedPath (u : URL) : GoString :=
  if !u.RawPath.isEmpty && validEncoded u.RawPath encodePath
      && unescape u.RawPath encodePath == some u.Path then u.RawPath
  else if u.Path == go "*" then go "*"
  else escape u.Path encodePath

/-- Go `(*URL).EscapedFragment`. -/
def URL.EscapedFragment (u : URL) : GoString :=
  if !u.RawFragment.isEmpty && validEncoded u.RawFragment encodeFragment
      && unescape u.RawFragment encodeFragment == some u.Fragment then u.RawFragment
  else escape u.Fragment encodeFragment

/-- Go `(*Userinfo).String`. -/
def Userinfo.String (u : Userinfo) : GoString :=
  escape u.username encodeUserPassword
    ++ (if u.passwordSet then go ":" ++ escape u.password encodeUserPassword else [])

/-- The part of `(*URL).String` written before the query: scheme, opaque part or
authority and path. -/
def URL.stringHead (u : URL) : GoString :=
  let buf0 : GoString := if !u.Scheme.isEmpty then u.Scheme ++ go ":" else []
  if !u.Opaque.isEmpty then buf0 ++ u.Opaque
  else
    let buf1 : GoString :=
      if !u.Scheme.isEmpty || !u.Host.isEmpty || u.User.isSome then
        if u.OmitHost && u.Host.isEmpty && u.User.isNone then buf0
        else
          buf0
            ++ (if !u.Host.isEmpty || !u.Path.isEmpty || u.User.isSome then go "//" else [])
            ++ (match u.User with
                | some ui => ui.String ++ go "@"
                | none => [])
            ++ (if !u.Host.isEmpty then escape u.Host encodeHost else [])
      else buf0
    let path := u.EscapedPath
    let buf2 : GoString :=
      if !path.isEmpty && !strings.HasPrefix path (go "/") && !u.Host.isEmpty then
        buf1 ++ go "/"
      else buf1
    let buf3 : GoString :=
      if buf2.isEmpty && strings.Contains (strings.Cut path (ch '/')).1 (go ":") then
        buf2 ++ go "./"
      else buf2
    buf3 ++ path

/-- Go `(*URL).String`. -/
def URL.String (u : URL) : GoString :=
  u.stringHead
    ++ (if u.ForceQuery || !u.RawQuery.isEmpty then go "?" ++ u.RawQuery else [])
    ++ (if !u.Fragment.isEmpty then go "#" ++ u.EscapedFragment else [])

/-- Go `url.Values`, a `map[string][]string`, as an association list in which every
key occurs once. -/
abbrev Values := List (GoString × List GoString)

/-- The map read `v[key]` (the empty slice for an absent key). -/
def Values.index (v : Values) (key : GoString) : List GoString :=
  match v with
  | [] => []
  | (k, vs) :: rest => if k = key then vs else Values.index rest key

/-- The map write `v[key] = vs`. -/
def Values.assign (v : Values) (key : GoString) (vs : List GoString) : Values :=
  (key, vs) :: v.filter (fun e => decide (e.1 ≠ key))

/-- Go `Values.Set(key, value)`: `v[key] = []string{value}`. -/
def Values.Set (v : Values) (key value : GoString) : Values := v.assign key [value]

/-- One round of the loop of Go `parseQuery` on the segment `key` cut off before the
next `&`: a segment with a `;`, an empty segment, and a segment whose key or value does
not unescape are skipped (`continue`); otherwise the value is appended to `m[key]`.
The error the source accumulates is not kept: `(*URL).Query` discards it. -/
def parseSegment (m : Values) (key : GoString) : Values :=
  if strings.Contains key (go ";") then m
  else if key.isEmpty then m
  else
    let kv := strings.Cut key (ch '=')
    match QueryUnescape kv.1 with
    | none => m
    | some key =>
      match QueryUnescape kv.2.1 with
      | none => m
      | some value => m.assign key (m.index key ++ [value])

/-- Go `parseQuery(m, query)`, the loop `for query != ""` run for at most `fuel` rounds
(each round removes at least one byte of `query`). -/
def parseQuery : Nat → Values → GoString → Values
  | 0, m, _ => m
  | fuel + 1, m, query =>
    if query.isEmpty then m
    else
      let c := strings.Cut query (ch '&')
      parseQuery fuel (parseSegment m c.1) c.2.1

/-- Go `url.ParseQuery`, keeping the map and dropping the error. -/
def ParseQuery (query : GoString) : Values := parseQuery query.length [] query

/-- Go `(*URL).Query`. -/
def URL.Query (u : URL) : Values := ParseQuery u.RawQuery

/-- Byte-wise lexicographic order of Go strings (`<=` on `string`). -/
def strLe : GoString → GoString → Bool
  | [], _ => true
  | _ :: _, [] => false
  | a :: s, b :: t => decide (a.val < b.val) || (a == b && strLe s t)

/-- Go `slices.Sort` on a slice of strings. -/
def sortStrings (keys : List GoString) : List GoString :=
  keys.insertionSort (fun a b => strLe a b = true)

/-- Go `Values.Encode`: the keys sorted, each value written as `key=value` with both
sides query-escaped, and `&` written before every pair but the first
(`if buf.Len() > 0`). -/
def Values.Encode (v : Values) : GoString :=
  (sortStrings (v.map (fun e => e.1))).foldl
    (fun buf k =>
      (v.index k).foldl
        (fun buf x =>
          (if buf.length > 0 then buf ++ go "&" else buf)
            ++ QueryEscape k ++ go "=" ++ QueryEscape x)
        buf)
    []

/-- The `key=value` pairs `Values.Encode` writes, in the order it writes them. -/
def Values.pairs (v : Values) : List (GoString × GoString) :=
  (sortStrings (v.map (fun e => e.1))).flatMap (fun k => (v.index k).map (fun x => (k, x)))

/-- The text `Values.Encode` writes for one pair. -/
def encodePair (p : GoString × GoString) : GoString :=
  QueryEscape p.1 ++ go "=" ++ QueryEscape p.2

/-- The map update of `parseQuery` for one pair: `m[key] = append(m[key], value)`. -/
def Values.add (m : Values) (p : GoString × GoString) : Values :=
  m.assign p.1 (m.index p.1 ++ [p.2])

end url

/-! ## net and net/netip -/

namespace net

/-- Go `net.IP`, a byte slice; the `nil` slice is `[]`. -/
abbrev IP := List Byte

/-- Go `net.IPMask`. -/
abbrev IPMask := List Byte

/-- Go `net.IPv4len`. -/
def IPv4len : Nat := 4

/-- Go `net.IPv6len`. -/
def IPv6len : Nat := 16

/-- Go `v4InV6Prefix`. -/
def v4InV6Prefix : List Byte := [0, 0, 0, 0, 0, 0, 0, 0, 0, 0, 0xff, 0xff]

/-- Go `netip.parseIPv4Fields`, the loop over the bytes of the literal of length `n`,
at offset `i` with previous byte `prev`: the four octets, or `none` for a parse error. -/
def parseIPv4FieldsLoop (n : Nat) :
    GoString → Nat → Option Byte → Nat → Nat → Nat → List Byte → Option (List Byte)
  | [], _, _, val, pos, _, fields =>
    if pos < 3 then none else some (fields ++ [Fin.ofNat val])
  | c :: s, i, prev, val, pos, digLen, fields =>
    if inRange '0' '9' c then
      if digLen = 1 ∧ val = 0 then none
      else
        let val2 := val * 10 + (c.val - '0'.toNat)
        if val2 > 255 then none
        else parseIPv4FieldsLoop n s (i + 1) (some c) val2 pos (digLen + 1) fields
    else if isCh c '.' then
      if i = 0 ∨ i = n - 1 ∨ prev = some (ch '.') then none
      else if pos = 3 then none
      else parseIPv4FieldsLoop n s (i + 1) (some c) 0 (pos + 1) 0 (fields ++ [Fin.ofNat val])
    else none

/-- Go `netip.parseIPv4Fields` on a whole literal. -/
def parseIPv4Fields (s : GoString) : Option (List Byte) :=
  parseIPv4FieldsLoop s.length s 0 none 0 0 0 []

/-- The hexadecimal group at the front of `s` (the inner loop of `netip.parseIPv6`):
`(off, acc, rest)` with `off` digits read, or `none` when the group has more than four
digits. -/
def hexGroup : GoString → Nat → Nat → Option (Nat × Nat × GoString)
  | [], off, acc => some (off, acc, [])
  | c :: s, off, acc =>
    if url.ishex c then
      let acc2 := acc * 16 + url.unhex c
      if off > 3 then none
      else if acc2 > 0xFFFF then none
      else hexGroup s (off + 1) acc2
    else some (off, acc, c :: s)

/-- The main loop of `netip.parseIPv6` (`for i < 16`), run for at most `fuel` rounds:
the unread input, the write offset `i`, the offset of the ellipsis and the 16 bytes. -/
def parseIPv6Loop :
    Nat → GoString → Nat → Option Nat → List Byte →
      Option (GoString × Nat × Option Nat × List Byte)
  | 0, s, i, ellipsis, ip => some (s, i, ellipsis, ip)
  | fuel + 1, s, i, ellipsis, ip =>
    if ¬ i < 16 then some (s, i, ellipsis, ip)
    else
      match hexGroup s 0 0 with
      | none => none
      | some (off, acc, rest) =>
        if off = 0 then none
        else if rest.head? = some (ch '.') then
          if ellipsis.isNone ∧ i ≠ 12 then none
          else if i + 4 > 16 then none
          else
            match parseIPv4Fields s with
            | none => none
            | some f => some ([], i + 4, ellipsis, ip.take i ++ f ++ ip.drop (i + 4))
        else
          let ip2 := (ip.set i (Fin.ofNat (acc / 256))).set (i + 1) (Fin.ofNat (acc % 256))
          let i2 := i + 2
          match rest with
          | [] => some ([], i2, ellipsis, ip2)
          | c :: more =>
            if !isCh c ':' then none
            else
              match more with
              | [] => none
              | c2 :: more2 =>
                if isCh c2 ':' then
                  if ellipsis.isSome then none
                  else if more2.isEmpty then some ([], i2, some i2, ip2)
                  else parseIPv6Loop fuel more2 i2 (some i2) ip2
                else parseIPv6Loop fuel more i2 ellipsis ip2

/-- Go `netip.parseIPv6`: the 16 bytes and the zone. -/
def parseIPv6 (input : GoString) : Option (List Byte × GoString) :=
  let cut := strings.Cut input (ch '%')
  if cut.2.2 && cut.2.1.isEmpty then none
  else
    let s := cut.1
    let zone := cut.2.1
    let lead := strings.HasPrefix s (go "::")
    let s1 := if lead then s.drop 2 else s
    if lead && s1.isEmpty then some (List.replicate 16 0, zone)
    else
      match parseIPv6Loop 9 s1 0 (if lead then some 0 else none) (List.replicate 16 0) with
      | none => none
      | some (rest, i, ellipsis, ip) =>
        if !rest.isEmpty then none
        else if i < 16 then
          match ellipsis with
          | none => none
          | some e =>
            some (ip.take e ++ List.replicate (16 - i) 0 ++ (ip.take i).drop e, zone)
        else if ellipsis.isSome then none
        else some (ip, zone)

/-- Go `netip.ParseAddr` followed by `As16`, as `net.parseIP` uses it: the first of
`.`, `:` and `%` in the literal selects the parser; an address with a zone is
refused. -/
def parseIPLoop (s : GoString) : GoString → Option (List Byte)
  | [] => none
  | c :: rest =>
    if isCh c '.' then (parseIPv4Fields s).map (fun f => v4InV6Prefix ++ f)
    else if isCh c ':' then
      match parseIPv6 s with
      | some (ip, zone) => if zone.isEmpty then some ip else none
      | none => none
    else if isCh c '%' then none
    else parseIPLoop s rest

/-- Go `net.ParseIP`: a 16-byte address, `none` for `nil`. -/
def ParseIP (s : GoString) : Option IP := parseIPLoop s s

/-- Go `IP.To4`: the 4-byte form of an IPv4 address, `none` for `nil`. -/
def IP.To4 (ip : IP) : Option IP :=
  if ip.length = IPv4len then some ip
  else if ip.length = IPv6len ∧ ip.take 12 = v4InV6Prefix then some (ip.drop 12)
  else none

/-- Go `net.CIDRMask(ones, bits)`; `[]` for `nil`. -/
def CIDRMask (ones bits : Nat) : IPMask :=
  if bits ≠ 8 * IPv4len ∧ bits ≠ 8 * IPv6len then []
  else if ones > bits then []
  else
    (List.range (bits / 8)).map (fun i =>
      if 8 * (i + 1) ≤ ones then (0xff : Byte)
      else if 8 * i ≤ ones then Fin.ofNat (255 - 255 / 2 ^ (ones - 8 * i))
      else 0)

/-- Go `IP.Mask(mask)`; `[]` for `nil`. -/
def IP.Mask (ip : IP) (mask : IPMask) : IP :=
  let mask1 :=
    if mask.length = IPv6len ∧ ip.length = IPv4len ∧ (mask.take 12).all (fun b => b = 0xff)
    then mask.drop 12 else mask
  let ip1 :=
    if mask1.length = IPv4len ∧ ip.length = IPv6len ∧ ip.take 12 = v4InV6Prefix
    then ip.drop 12 else ip
  if ip1.length ≠ mask1.length then []
  else List.zipWith (fun a b => Fin.ofNat (a.val &&& b.val)) ip1 mask1

/-- Go `netip.appendDecimal`: the decimal digits of one octet. -/
def appendDecimal (x : Nat) : GoString :=
  let digits := go "0123456789"
  (if x ≥ 100 then [digits.getD (x / 100) 0] else [])
    ++ (if x ≥ 10 then [digits.getD (x / 10 % 10) 0] else [])
    ++ [digits.getD (x % 10) 0]

/-- Go `netip.Addr.string4`: dotted decimal. -/
def string4 (ip : List Byte) : GoString :=
  (go ".").intercalate (ip.map (fun b => appendDecimal b.val))

/-- Go `netip.appendHex`: lower-case hexadecimal without leading zeros. -/
def appendHex (x : Nat) : GoString :=
  let digits := go "0123456789abcdef"
  (if x ≥ 0x1000 then [digits.getD (x / 0x1000) 0] else [])
    ++ (if x ≥ 0x100 then [digits.getD (x / 0x100 % 16) 0] else [])
    ++ (if x ≥ 0x10 then [digits.getD (x / 0x10 % 16) 0] else [])
    ++ [digits.getD (x % 16) 0]

/-- The eight 16-bit groups of a 16-byte address (`v6u16`). -/
def groups (ip : List Byte) : List Nat :=
  (List.range 8).map (fun i => (ip.getD (2 * i) 0).val * 256 + (ip.getD (2 * i + 1) 0).val)

/-- The first longest run of at least two zero groups, `(zeroStart, zeroEnd)`
(first loop of `netip.Addr.appendTo6`); `(255, 255)` when there is none. -/
def zeroRun (g : List Nat) : Nat × Nat :=
  (List.range 8).foldl
    (fun best i =>
      let j := i + ((g.drop i).takeWhile (fun x => x == 0)).length
      if j - i ≥ 2 ∧ j - i > best.2 - best.1 then (i, j) else best)
    (255, 255)

/-- The second loop of `netip.Addr.appendTo6`, from group `i`, for at most `fuel` rounds. -/
def appendGroups (g : List Nat) (zr : Nat × Nat) : Nat → Nat → GoString
  | 0, _ => []
  | fuel + 1, i =>
    if ¬ i < 8 then []
    else if i = zr.1 then
      go "::" ++ (if zr.2 ≥ 8 then []
                  else appendHex (g.getD zr.2 0) ++ appendGroups g zr fuel (zr.2 + 1))
    else
      (if i > 0 then go ":" else []) ++ appendHex (g.getD i 0) ++ appendGroups g zr fuel (i + 1)

/-- Go `netip.Addr.string6` for an address without zone. -/
def string6 (ip : List Byte) : GoString :=
  appendGroups (groups ip) (zeroRun (groups ip)) 8 0

/-- Go `hexString`. -/
def hexString (b : List Byte) : GoString :=
  let digits := go "0123456789abcdef"
  b.flatMap (fun x => [digits.getD (x.val / 16) 0, digits.getD (x.val % 16) 0])

/-- Go `IP.String`. -/
def IP.String (ip : IP) : GoString :=
  if ip.length = 0 then go "<nil>"
  else if ip.length ≠ IPv4len ∧ ip.length ≠ IPv6len then go "?" ++ hexString ip
  else
    match IP.To4 ip with
    | some p4 => string4 p4
    | none => string6 ip

end net

/-! ## time and gorm -/

/-- Go `time.Time`, as the number of nanoseconds since the zero instant. -/
abbrev Time := Int

/-- Go `Time.IsZero`. -/
def Time.IsZero (t : Time) : Bool := decide (t = 0)

/-- Go `Time.Before`. -/
def Time.Before (t u : Time) : Bool := decide (t < u)

/-- Go `gorm.Model`: the columns every model embeds. A row with `DeletedAt` set is
soft-deleted and invisible to queries. -/
structure Model where
  ID : Nat := 0
  CreatedAt : Time := 0
  UpdatedAt : Time := 0
  DeletedAt : Option Time := none
  deriving DecidableEq, Repr

/-- Go `error`: `nil` is `Except.ok ()`, otherwise the message. -/
abbrev Err := Except String Unit

/-- Equality of results is decidable. -/
instance instDecidableEqExcept {ε α : Type} [DecidableEq ε] [DecidableEq α] :
    DecidableEq (Except ε α)
  | .ok a, .ok b =>
    if h : a = b then isTrue (by rw [h]) else isFalse (fun h2 => h (by cases h2; rfl))
  | .error a, .error b =>
    if h : a = b then isTrue (by rw [h]) else isFalse (fun h2 => h (by cases h2; rfl))
  | .ok _, .error _ => isFalse (fun h => by cases h)
  | .error _, .ok _ => isFalse (fun h => by cases h)

/-! ## internal/models/url_mapping.go -/

namespace models

/-- Go `models.URLMapping`. -/
structure URLMapping where
  Model : Model := {}
  Slug : GoString
  DestinationURL : GoString
  UTMSource : GoString := []
  UTMMedium : GoString := []
  UTMCampaign : GoString := []
  ExpiresAt : Time := 0
  deriving DecidableEq, Repr

/-- The rune predicate passed to `strings.IndexFunc` in `isValidUTMParam`: the rune is
not one of `_`, `-`, `a`-`z`, `A`-`Z`, `0`-`9`. -/
def notUTMRune (r : Nat) : Bool :=
  !(r == '_'.toNat || r == '-'.toNat || ('a'.toNat ≤ r && r ≤ 'z'.toNat)
      || ('A'.toNat ≤ r && r ≤ 'Z'.toNat) || ('0'.toNat ≤ r && r ≤ '9'.toNat))

/-- Go `isValidUTMParam`. -/
def isValidUTMParam (param : GoString) : Bool :=
  decide (param.length > 0) && decide (param.length ≤ 100)
    && strings.IndexFunc param notUTMRune == none

/-- Go `(*URLMapping).Validate`, with `time.Now()` as `now`. -/
def URLMapping.Validate (m : URLMapping) (now : Time) : Err :=
  if strings.TrimSpace m.Slug == [] then .error "slug cannot be empty"
  else if (url.ParseRequestURI m.DestinationURL).isNone then .error "invalid destination URL"
  else if m.UTMSource != [] && !isValidUTMParam m.UTMSource then .error "invalid UTM source"
  else if m.UTMMedium != [] && !isValidUTMParam m.UTMMedium then .error "invalid UTM medium"
  else if m.UTMCampaign != [] && !isValidUTMParam m.UTMCampaign then
    .error "invalid UTM campaign"
  else if !Time.IsZero m.ExpiresAt && Time.Before m.ExpiresAt now then
    .error "expiration time must be in the future"
  else .ok ()

/-- The three conditional `query.Set` calls of `BuildRedirectURL`. -/
def URLMapping.setUTM (m : URLMapping) (query : url.Values) : url.Values :=
  let query := if m.UTMSource != [] then query.Set (go "utm_source") m.UTMSource else query
  let query := if m.UTMMedium != [] then query.Set (go "utm_medium") m.UTMMedium else query
  let query :=
    if m.UTMCampaign != [] then query.Set (go "utm_campaign") m.UTMCampaign else query
  query

/-- The `url.URL` whose `String()` `BuildRedirectURL` returns: the parsed destination
with `RawQuery` replaced by the re-encoded query after the `query.Set` calls; `none`
when `url.Parse` fails. -/
def URLMapping.redirectURL (m : URLMapping) : Option url.URL :=
  match url.Parse m.DestinationURL with
  | none => none
  | some baseURL => some { baseURL with RawQuery := (m.setUTM baseURL.Query).Encode }

/-- Go `(*URLMapping).BuildRedirectURL`. -/
def URLMapping.BuildRedirectURL (m : URLMapping) : GoString :=
  match m.redirectURL with
  | none => m.DestinationURL
  | some baseURL => baseURL.String

end models

/-! ## internal/tracking/logger.go (model) and the gorm handle -/

namespace tracking

/-- Go `tracking.ClickLog`. -/
structure ClickLog where
  Model : Model := {}
  Slug : GoString
  IPAddress : GoString
  Timestamp : Time
  Referrer : GoString
  UserAgent : GoString
  deriving DecidableEq, Repr

end tracking

/-- Go `*gorm.DB`: the tables this program reads and writes, and the health of the
connection. `queryErr` is the error a `SELECT` meets (`none`: the query runs);
`createErr` the error an `INSERT` meets (`none`: the row is stored). -/
structure DB where
  url_mappings : List models.URLMapping := []
  click_logs : List tracking.ClickLog := []
  queryErr : Option String := none
  createErr : Option String := none
  deriving DecidableEq, Repr

/-- The row gorm's `First` returns among `rows`: the one with the least primary key
(`ORDER BY id LIMIT 1`). -/
def firstByID (rows : List models.URLMapping) : Option models.URLMapping :=
  rows.foldl
    (fun best r =>
      match best with
      | none => some r
      | some b => if r.Model.ID < b.Model.ID then some r else some b)
    none

/-- Go `db.Where(cond).First(&mapping)` on the `url_mappings` table: the row, or
`result.Error` (`gorm.ErrRecordNotFound` is "record not found"). Soft-deleted rows are
not seen. -/
def DB.First (db : DB) (cond : models.URLMapping → Bool) : Except String models.URLMapping :=
  match db.queryErr with
  | some e => .error e
  | none =>
    match firstByID (db.url_mappings.filter (fun r => r.Model.DeletedAt.isNone && cond r)) with
    | none => .error "record not found"
    | some r => .ok r

namespace models

/-- Go `models.GetURLBySlug(db, slug)`, with `time.Now()` as `now`: the lookup that
filters on `expires_at > now`. -/
def GetURLBySlug (db : DB) (slug : GoString) (now : Time) : Except String URLMapping :=
  let slug := strings.TrimSpace slug
  if slug == [] then .error "slug cannot be empty"
  else
    match db.First (fun r => r.Slug == slug && decide (r.ExpiresAt > now)) with
    | .error e =>
      if e == "record not found" then .error "URL mapping not found or expired" else .error e
    | .ok mapping => .ok mapping

end models

/-! ## internal/database/postgres.go -/

namespace database

/-- Go `database.Database`. -/
structure Database where
  Client : DB
  deriving DecidableEq, Repr

/-- Go `(*Database).GetURLBySlug`. -/
def Database.GetURLBySlug (d : Database) (slug : GoString) : Except String models.URLMapping :=
  d.Client.First (fun r => r.Slug == slug)

end database

/-! ## internal/tracking -/

namespace tracking

/-- The address `LogClick` stores and `ExtractNetworkInfo` returns for a raw client
address: empty when it does not parse, the address masked to 24 bits when `To4` is not
`nil`, else masked to 48 bits, in the text form of `IP.String`. -/
def anonymize (ipAddress : GoString) : GoString :=
  match net.ParseIP ipAddress with
  | none => []
  | some ip =>
    if (net.IP.To4 ip).isSome then net.IP.String (net.IP.Mask ip (net.CIDRMask 24 32))
    else net.IP.String (net.IP.Mask ip (net.CIDRMask 48 128))

/-- Go `ct.db.Create(&clickLog)`: on success the row is appended with the next
primary key and its timestamps set; on failure the table is unchanged. -/
def createClickLog (db : DB) (row : ClickLog) (now : Time) : Err × DB :=
  match db.createErr with
  | some e => (.error e, db)
  | none =>
    let id := (db.click_logs.map (fun r => r.Model.ID)).foldl max 0 + 1
    (.ok (), { db with click_logs := db.click_logs ++
      [{ row with Model := { ID := id, CreatedAt := now, UpdatedAt := now } }] })

/-- Go `(*ClickTracker).LogClick`, with `time.Now()` as `now`. -/
def LogClick (db : DB) (slug ipAddress referrer userAgent : GoString) (now : Time) : Err × DB :=
  let anonymizedIP := anonymize ipAddress
  let clickLog : ClickLog :=
    { Slug := slug, IPAddress := anonymizedIP, Timestamp := now, Referrer := referrer,
      UserAgent := userAgent }
  createClickLog db clickLog now

/-- Go `(*AdvancedTracker).ExtractNetworkInfo`: `(network, countryCode)`. -/
def ExtractNetworkInfo (ipStr : GoString) : GoString × GoString :=
  match net.ParseIP ipStr with
  | none => ([], [])
  | some ip =>
    let network :=
      if (net.IP.To4 ip).isSome then net.IP.String (net.IP.Mask ip (net.CIDRMask 24 32))
      else net.IP.String (net.IP.Mask ip (net.CIDRMask 48 128))
    (network, [])

/-- Go `(*AdvancedTracker).ParseUserAgent`: `(browserFamily, osFamily, deviceType)`.
`caseTable` is the Unicode case table `strings.ToLower` consults beyond ASCII. -/
def ParseUserAgent (caseTable : Nat → Nat) (userAgent : GoString) :
    String × String × String :=
  let userAgent := strings.ToLower caseTable userAgent
  let browserFamily :=
    if strings.Contains userAgent (go "chrome") then "Chrome"
    else if strings.Contains userAgent (go "firefox") then "Firefox"
    else if strings.Contains userAgent (go "safari") then "Safari"
    else if strings.Contains userAgent (go "edge") then "Edge"
    else "Unknown"
  let osFamily :=
    if strings.Contains userAgent (go "windows") then "Windows"
    else if strings.Contains userAgent (go "mac") then "macOS"
    else if strings.Contains userAgent (go "linux") then "Linux"
    else if strings.Contains userAgent (go "android") then "Android"
    else if strings.Contains userAgent (go "ios") then "iOS"
    else "Unknown"
  let deviceType :=
    if strings.Contains userAgent (go "mobile") then "Mobile"
    else if strings.Contains userAgent (go "tablet") then "Tablet"
    else "Desktop"
  (browserFamily, osFamily, deviceType)

end tracking

/-! ## gin responses -/

/-- The call a handler makes on its `*gin.Context`, with its arguments. -/
inductive Response where
  /-- `c.Redirect(code, location)`. -/
  | Redirect (code : Nat) (location : GoString)
  /-- `c.JSON(code, gin.H{"error": message})`. -/
  | JSON (code : Nat) (message : String)
  /-- `c.String(code, body)`. -/
  | String (code : Nat) (body : GoString)
  deriving DecidableEq, Repr

/-- Go `http.StatusNotFound`. -/
def StatusNotFound : Nat := 404

/-- Go `http.StatusTemporaryRedirect`. -/
def StatusTemporaryRedirect : Nat := 307

/-- Go `http.StatusPermanentRedirect`. -/
def StatusPermanentRedirect : Nat := 308

/-- Go `http.StatusInternalServerError`. -/
def StatusInternalServerError : Nat := 500

/-! ## path, net/http and gin: what a handler call sends -/

namespace path

/-- Go `path.Split`: `(dir, file)`, split after the last slash. -/
def Split (p : GoString) : GoString × GoString :=
  match strings.LastIndexByte p (ch '/') with
  | some i => (p.take (i + 1), p.drop (i + 1))
  | none => ([], p)

/-- The backtracking of Go `path.Clean` at a `..` element: with the write offset already
decremented to `w`, move it down while it is above `dotdot` and the byte at it is not a
slash. `rev` holds the bytes at offsets `w`, `w - 1`, ... -/
def backtrack (dotdot : Nat) : List Byte → Nat → Nat
  | [], w => w
  | b :: rev, w => if w > dotdot ∧ !isCh b '/' then backtrack dotdot rev (w - 1) else w

/-- The loop `for r < n` of Go `path.Clean` on the unread part of the path, with the
bytes written so far in `out`, for at most `fuel` rounds (each round reads at least one
byte). -/
def cleanLoop (rooted : Bool) : Nat → GoString → GoString → Nat → GoString
  | 0, _, out, _ => out
  | _ + 1, [], out, _ => out
  | fuel + 1, c :: t, out, dotdot =>
    if isCh c '/' then cleanLoop rooted fuel t out dotdot
    else if isCh c '.' && (t.isEmpty || t.head? == some (ch '/')) then
      cleanLoop rooted fuel t out dotdot
    else if isCh c '.' && t.head? == some (ch '.')
        && ((t.drop 1).isEmpty || (t.drop 1).head? == some (ch '/')) then
      if out.length > dotdot then
        cleanLoop rooted fuel (t.drop 1)
          (out.take (backtrack dotdot out.reverse (out.length - 1))) dotdot
      else if !rooted then
        let out1 := (if out.length > 0 then out ++ go "/" else out) ++ go ".."
        cleanLoop rooted fuel (t.drop 1) out1 out1.length
      else cleanLoop rooted fuel (t.drop 1) out dotdot
    else
      let out1 :=
        if (rooted && out.length != 1) || (!rooted && out.length != 0) then out ++ go "/"
        else out
      let c1 := strings.Cut (c :: t) (ch '/')
      cleanLoop rooted fuel ((c :: t).drop c1.1.length) (out1 ++ c1.1) dotdot

/-- Go `path.Clean`. -/
def Clean (p : GoString) : GoString :=
  if p.isEmpty then go "."
  else
    let rooted := strings.HasPrefix p (go "/")
    let out :=
      if rooted then cleanLoop true p.length (p.drop 1) (go "/") 1
      else cleanLoop false p.length p [] 0
    if out.isEmpty then go "." else out

end path

namespace http

/-- Go `http.StatusText` for the statuses `c.Redirect` accepts. -/
def StatusText (code : Nat) : GoString :=
  if code = 201 then go "Created"
  else if code = 300 then go "Multiple Choices"
  else if code = 301 then go "Moved Permanently"
  else if code = 302 then go "Found"
  else if code = 303 then go "See Other"
  else if code = 304 then go "Not Modified"
  else if code = 305 then go "Use Proxy"
  else if code = 307 then go "Temporary Redirect"
  else if code = 308 then go "Permanent Redirect"
  else []

/-- Go `hexEscapeNonASCII`: every byte from `0x80` up is written as `%` and its two
lower-case hexadecimal digits. -/
def hexEscapeNonASCII (s : GoString) : GoString :=
  s.flatMap (fun b =>
    if b.val ≥ utf8.RuneSelf then
      [ch '%', (go "0123456789abcdef").getD (b.val / 16) 0,
       (go "0123456789abcdef").getD (b.val % 16) 0]
    else [b])

/-- Go `htmlEscape` (`htmlReplacer`). -/
def htmlEscape (s : GoString) : GoString :=
  s.flatMap (fun b =>
    if isCh b '&' then go "&amp;"
    else if isCh b '<' then go "&lt;"
    else if isCh b '>' then go "&gt;"
    else if isCh b '"' then go "&#34;"
    else if isCh b '\'' then go "&#39;"
    else [b])

/-- Go `textproto.TrimString`: white space (space, tab, line feed, carriage return) is
removed from both ends. -/
def TrimString (s : GoString) : GoString :=
  let isASCIISpace := fun (b : Byte) => isCh b ' ' || isCh b '\t' || isCh b '\n' || isCh b '\r'
  ((s.dropWhile isASCIISpace).reverse.dropWhile isASCIISpace).reverse

/-- A header value as `Header.Write` puts it on the wire: `headerNewlineToSpace` replaces
every line feed and carriage return by a space, then `textproto.TrimString` trims it. -/
def headerValue (v : GoString) : GoString :=
  TrimString (v.map (fun b => if isCh b '\n' || isCh b '\r' then ch ' ' else b))

/-- The target `http.Redirect` sends for the argument `target` when the request path is
`reqPath`: a target that parses and has neither scheme nor host is made absolute
against the directory of the request path and cleaned with `path.Clean`, keeping a
trailing slash and the part from the first `?` on; any other target is kept. -/
def redirectTarget (reqPath target : GoString) : GoString :=
  match url.Parse target with
  | none => target
  | some u =>
    if u.Scheme.isEmpty && u.Host.isEmpty then
      let oldpath := if reqPath.isEmpty then go "/" else reqPath
      let target1 :=
        if target.isEmpty || !strings.HasPrefix target (go "/") then
          (path.Split oldpath).1 ++ target
        else target
      let cut : GoString × GoString :=
        match strings.Index target1 (go "?") with
        | some i => (target1.take i, target1.drop i)
        | none => (target1, [])
      let trailing := strings.HasSuffix cut.1 (go "/")
      let cleaned := path.Clean cut.1
      (if trailing && !strings.HasSuffix cleaned (go "/") then cleaned ++ go "/" else cleaned)
        ++ cut.2
    else target

end http

namespace gin

/-- What a handler call sends to the client: the status, the value of the `Location`
header when there is one, and the body. -/
structure Written where
  status : Nat
  location : Option GoString := none
  body : GoString
  deriving DecidableEq, Repr

/-- Go gin `bodyAllowedForStatus`. -/
def bodyAllowedForStatus (status : Nat) : Bool :=
  !((100 ≤ status && status ≤ 199) || status == 204 || status == 304)

/-- Go gin `(*Context).Render(code, r)` for a renderer that writes `body`:
`c.Status(code)` keeps the default 200 when `code` is not positive, and the body is
left out for a status that allows none. `none`: the call sends no final response that
is modelled here, because `net/http` panics on a status outside 100..999 and answers a
1xx status other than 101 with an informational header only. -/
def render (code : Nat) (body : GoString) : Option Written :=
  let status := if code > 0 then code else 200
  if status < 100 ∨ status > 999 then none
  else if 100 ≤ status ∧ status ≤ 199 ∧ status ≠ 101 then none
  else some { status := status, body := if bodyAllowedForStatus code then body else [] }

/-- Go gin `c.JSON(code, gin.H{"error": message})`. -/
def JSON (code : Nat) (message : String) : Option Written :=
  render code (go "\x7b\"error\":\"" ++ go message ++ go "\"\x7d")

/-- Go gin `c.String(code, body)`, called without format arguments: the text is written
as it stands. -/
def String (code : Nat) (body : GoString) : Option Written :=
  render code body

/-- Go gin `c.Redirect(code, location)` on a `GET` request with path `reqPath` and no
`Content-Type` set before: the renderer panics (`none`) unless the status is 201 or in
300..308, and otherwise calls `http.Redirect`, which sends the status, the rewritten
target with its non-ASCII bytes escaped as `Location`, and a short HTML body (none for
304). -/
def Redirect (reqPath : GoString) (code : Nat) (location : GoString) : Option Written :=
  if (code < 300 ∨ code > 308) ∧ code ≠ 201 then none
  else
    let target := http.redirectTarget reqPath location
    some { status := code,
           location := some (http.headerValue (http.hexEscapeNonASCII target)),
           body :=
             if bodyAllowedForStatus code then
               go "<a href=\"" ++ http.htmlEscape target ++ go "\">" ++ http.StatusText code
                 ++ go "</a>.\n\n"
             else [] }

end gin

/-! ## internal/handlers/redirect_handler.go -/

namespace handlers

/-- The request data `HandleRedirect` reads from its `*gin.Context`. -/
structure Request where
  slug : GoString
  ClientIP : GoString := []
  Referer : GoString := []
  UserAgent : GoString := []
  deriving DecidableEq, Repr

/-- The effects of one run of `HandleRedirect`: the response written, the store
afterwards and the lines written with `log.Printf`. -/
structure Outcome where
  response : Response
  db : DB
  logged : List String
  deriving DecidableEq, Repr

/-- Go `(*RedirectHandler).buildRedirectURL`. -/
def buildRedirectURL (mapping : models.URLMapping) : GoString :=
  let baseURL := mapping.DestinationURL
  let utmParams :=
    go "utm_source=" ++ mapping.UTMSource ++ go "&utm_medium=" ++ mapping.UTMMedium
      ++ go "&utm_campaign=" ++ mapping.UTMCampaign
  if strings.Contains baseURL (go "?") then baseURL ++ go "&" ++ utmParams
  else baseURL ++ go "?" ++ utmParams

/-- Go `(*RedirectHandler).HandleRedirect`, with `time.Now()` as `now`. The handler's
`db` and its click tracker share one gorm handle, as `cmd/tracking-api/main.go` wires
them. -/
def HandleRedirect (db : DB) (req : Request) (now : Time) : Outcome :=
  match database.Database.GetURLBySlug { Client := db } req.slug with
  | .error _ => { response := .JSON StatusNotFound "URL not found", db := db, logged := [] }
  | .ok urlMapping =>
    let r := tracking.LogClick db req.slug req.ClientIP req.Referer req.UserAgent now
    let logged :=
      match r.1 with
      | .error e => ["Failed to log click: " ++ e]
      | .ok _ => []
    let redirectURL := buildRedirectURL urlMapping
    { response := .Redirect StatusTemporaryRedirect redirectURL, db := r.2, logged := logged }

end handlers

/-! ## cmd/frontend-proxy/main.go -/

namespace frontendproxy

/-- Go `http.Header`. -/
abbrev Header := List (GoString × List GoString)

/-- Go `Header.Get(key)` for a key already in canonical form: the first value, or the
empty string. -/
def Header.Get (h : Header) (key : GoString) : GoString :=
  match url.Values.index h key with
  | [] => []
  | v :: _ => v

/-- The `*http.Response` the proxy reads: status, headers and the bytes `io.ReadAll`
obtains from the body. -/
structure HTTPResponse where
  StatusCode : Nat
  Header : Header := []
  Body : GoString := []
  deriving DecidableEq, Repr

/-- The `*http.Request` the proxy forwards. -/
structure HTTPRequest where
  Method : GoString
  URL : url.URL
  Host : GoString
  Header : Header
  deriving DecidableEq, Repr

/-- Go `removeEmptyPort`: a host ending in `:` after its last `]` loses that colon. -/
def removeEmptyPort (host : GoString) : GoString :=
  let colon := strings.LastIndexByte host (ch ':')
  let bracket := strings.LastIndexByte host (ch ']')
  let hasPort :=
    match colon, bracket with
    | some i, some j => decide (i > j)
    | some _, none => true
    | none, _ => false
  if hasPort && strings.HasSuffix host (go ":") then host.take (host.length - 1) else host

/-- Go `http.NewRequest(method, target, nil)` for a valid method: fails when the
address does not parse. -/
def NewRequest (method target : GoString) : Option HTTPRequest :=
  match url.Parse target with
  | none => none
  | some u =>
    let host := removeEmptyPort u.Host
    some { Method := method, URL := { u with Host := host }, Host := host, Header := [] }

/-- Go `(*http.Client).Do` for a client whose `CheckRedirect` returns
`http.ErrUseLastResponse` and a request without body; `send` is the client's `send`,
the exchange of one request with the server. After a response with status 301, 302,
303, 307 or 308 the client reads `Location`: an empty one ends the call with the
response; one that does not parse ends it with an error, before `CheckRedirect` is
asked; otherwise `CheckRedirect` makes the client return the response unfollowed. -/
def ClientDo (send : HTTPRequest → Except String HTTPResponse) (req : HTTPRequest) :
    Except String HTTPResponse :=
  match send req with
  | .error e => .error e
  | .ok resp =>
    if resp.StatusCode == 301 || resp.StatusCode == 302 || resp.StatusCode == 303
        || resp.StatusCode == 307 || resp.StatusCode == 308 then
      let loc := Header.Get resp.Header (go "Location")
      if loc == [] then .ok resp
      else
        match url.Parse loc with
        | none => .error "failed to parse Location header"
        | some _ => .ok resp
    else .ok resp

/-- Go `FrontendProxy`: the base address of the tracking API, and of its `http.Client`
the `send` that exchanges a request with the Resolution Service (the rest of the client
is `ClientDo`: `NewFrontendProxy` sets `CheckRedirect` to return
`http.ErrUseLastResponse`). -/
structure FrontendProxy where
  trackingAPIURL : GoString
  send : HTTPRequest → Except String HTTPResponse

/-- Go `(*FrontendProxy).HandleRedirect`, for the inbound `GET` request with path
parameter `slug` and headers `header`: what the handler sends, `none` when the gin call
it makes sends no final response. The route is `/r/:slug`, so the path of the inbound
request is `/r/` followed by the slug. -/
def FrontendProxy.HandleRedirect (fp : FrontendProxy) (slug : GoString) (header : Header) :
    Option gin.Written :=
  let reqPath := go "/r/" ++ slug
  let trackingURL := fp.trackingAPIURL ++ go "/r/" ++ slug
  match NewRequest (go "GET") trackingURL with
  | none => gin.JSON StatusInternalServerError "Failed to create request"
  | some req0 =>
    let req : HTTPRequest := { req0 with Header := header }
    match ClientDo fp.send req with
    | .error _ => gin.JSON StatusInternalServerError "Failed to forward request"
    | .ok resp =>
      if resp.StatusCode == StatusTemporaryRedirect
          || resp.StatusCode == StatusPermanentRedirect then
        let redirectURL := Header.Get resp.Header (go "Location")
        if redirectURL == [] then gin.JSON StatusInternalServerError "No redirect URL found"
        else gin.Redirect reqPath resp.StatusCode redirectURL
      else gin.String resp.StatusCode resp.Body

end frontendproxy

/-! ## Rule tables of the user-agent classifier, as data -/

namespace tracking

/-- One classification rule: a keyword and the label it assigns. -/
structure Rule where
  keyword : GoString
  label : String

/-- The label of the first rule of `rules` whose keyword is a substring of `ua`,
`dflt` when no rule matches. -/
def firstMatch (rules : List Rule) (dflt : String) (ua : GoString) : String :=
  match rules.find? (fun r => strings.Contains ua r.keyword) with
  | some r => r.label
  | none => dflt

/-- The browser rules, in the order of the `switch` of `ParseUserAgent`. -/
def browserRules : List Rule :=
  [⟨go "chrome", "Chrome"⟩, ⟨go "firefox", "Firefox"⟩, ⟨go "safari", "Safari"⟩,
   ⟨go "edge", "Edge"⟩]

/-- The operating-system rules, in the order of the `switch` of `ParseUserAgent`. -/
def osRules : List Rule :=
  [⟨go "windows", "Windows"⟩, ⟨go "mac", "macOS"⟩, ⟨go "linux", "Linux"⟩,
   ⟨go "android", "Android"⟩, ⟨go "ios", "iOS"⟩]

/-- The device rules, in the order of the `switch` of `ParseUserAgent`. -/
def deviceRules : List Rule := [⟨go "mobile", "Mobile"⟩, ⟨go "tablet", "Tablet"⟩]

end tracking

/-! ## The UTM token pattern and the expected UTM query, in the words of the specification -/

namespace models

/-- A character of the class `[A-Za-z0-9_-]`. -/
def isUTMRune (r : Nat) : Bool :=
  ('A'.toNat ≤ r && r ≤ 'Z'.toNat) || ('a'.toNat ≤ r && r ≤ 'z'.toNat)
    || ('0'.toNat ≤ r && r ≤ '9'.toNat) || r == '_'.toNat || r == '-'.toNat

/-- A string of 1 to 100 characters all drawn from `[A-Za-z0-9_-]`. -/
def isUTMToken (s : GoString) : Bool :=
  decide (1 ≤ (utf8.runes s).length) && decide ((utf8.runes s).length ≤ 100)
    && (utf8.runes s).all isUTMRune

/-- A UTM field as the specification admits it: empty, or a UTM token. -/
def utmFieldOk (s : GoString) : Bool := s == [] || isUTMToken s

/-- The query string made of the non-empty UTM fields of a mapping: `key=value` with
the value written as it stands, joined by `&`, keys in alphabetical order. -/
def utmQuery (m : URLMapping) : GoString :=
  (go "&").intercalate
    ((if m.UTMCampaign != [] then [go "utm_campaign=" ++ m.UTMCampaign] else [])
      ++ (if m.UTMMedium != [] then [go "utm_medium=" ++ m.UTMMedium] else [])
      ++ (if m.UTMSource != [] then [go "utm_source=" ++ m.UTMSource] else []))

end models

/-! ## Example data -/

namespace examples

/-- One second, in nanoseconds. -/
def second : Time := 1000000000

/-- A mapping for the slug `promo` that expired at second 5. -/
def expiredPromo : models.URLMapping :=
  { Model := { ID := 1 }, Slug := go "promo", DestinationURL := go "https://example.com/landing",
    UTMSource := go "newsletter", ExpiresAt := 5 * second }

/-- A store holding only `expiredPromo`. -/
def expiredStore : DB := { url_mappings := [expiredPromo] }

/-- A mapping whose destination already carries `utm_source=old`. -/
def retagged : models.URLMapping :=
  { Model := { ID := 1 }, Slug := go "promo",
    DestinationURL := go "https://example.com/landing?utm_source=old",
    UTMSource := go "new", ExpiresAt := 50 * second }

/-- A store holding only `retagged`. -/
def retaggedStore : DB := { url_mappings := [retagged] }

/-- A valid mapping without expiry. -/
def promo : models.URLMapping :=
  { Model := { ID := 1 }, Slug := go "promo", DestinationURL := go "https://example.com/landing",
    UTMSource := go "newsletter", UTMMedium := go "email", UTMCampaign := go "spring" }

/-- A store holding only `promo`. -/
def promoStore : DB := { url_mappings := [promo] }

/-- A mapping whose source and medium both contain a space. -/
def twoBadFields : models.URLMapping :=
  { promo with UTMSource := go "a b", UTMMedium := go "c d" }

/-- The 16-byte address of the literal `::ffff:1.2.3.4`. -/
def mappedAddr : net.IP := net.v4InV6Prefix ++ [1, 2, 3, 4]

/-- The 16-byte address of the literal `203.0.113.77`. -/
def dottedAddr : net.IP := net.v4InV6Prefix ++ [203, 0, 113, 77]

/-- The parsed destination of `promo`. -/
def promoBase : url.URL :=
  { Scheme := go "https", Host := go "example.com", Path := go "/landing" }

/-- A mapping that passes `Validate` and whose opaque destination has a fragment with a
malformed escape. -/
def opaqueDest : models.URLMapping := { promo with DestinationURL := go "mailto:x#%zz" }

end examples

/-! # Theorems -/

/-! ## Resolution Service: expiry, click logging, redirect target -/

/-- Whenever the store lookup of the handler finds a mapping, the handler answers 307
with the location built from that mapping, whatever the mapping's expiry and whatever
the outcome of the click insert. -/
theorem handleRedirect_found (db : DB) (req : handlers.Request) (now : Time)
    (m : models.URLMapping)
    (h : database.Database.GetURLBySlug { Client := db } req.slug = .ok m) :
    (handlers.HandleRedirect db req now).response
      = .Redirect StatusTemporaryRedirect (handlers.buildRedirectURL m) := by
  simp [handlers.HandleRedirect, h]

/-- The lookup of the handler does not read `createErr`. -/
theorem getURLBySlug_createErr (db : DB) (ce : Option String) (slug : GoString) :
    database.Database.GetURLBySlug { Client := { db with createErr := ce } } slug
      = database.Database.GetURLBySlug { Client := db } slug := by
  simp [database.Database.GetURLBySlug, DB.First]

/-- C1 (code evaluated at the failing input): a mapping whose non-zero `ExpiresAt` lies
one second before the resolution time is still resolved by the handler with a 307
redirect, while the lookup `models.GetURLBySlug`, which filters on the expiry, reports
it as expired. -/
theorem c1_expired_slug_still_redirects :
    (handlers.HandleRedirect examples.expiredStore { slug := go "promo" }
        (6 * examples.second)).response
      = .Redirect 307
          (go "https://example.com/landing?utm_source=newsletter&utm_medium=&utm_campaign=")
    ∧ examples.expiredPromo.ExpiresAt ≠ 0
    ∧ examples.expiredPromo.ExpiresAt = 6 * examples.second - examples.second
    ∧ models.GetURLBySlug examples.expiredStore (go "promo") (6 * examples.second)
      = .error "URL mapping not found or expired" := by
  decide

/-- C2 (code evaluated at the failing input): for a destination that already carries
`utm_source=old` the handler appends a second `utm_source`, keeps `old`, and emits
`utm_medium` and `utm_campaign` with empty values; `BuildRedirectURL` of the same
mapping sets the key once. -/
theorem c2_handler_duplicates_utm_source :
    (handlers.HandleRedirect examples.retaggedStore { slug := go "promo" }
        (6 * examples.second)).response
      = .Redirect 307
          (go "https://example.com/landing?utm_source=old&utm_source=new&utm_medium=&utm_campaign=")
    ∧ url.Values.index
        (url.ParseQuery (go "utm_source=old&utm_source=new&utm_medium=&utm_campaign="))
        (go "utm_source") = [go "old", go "new"]
    ∧ examples.retagged.BuildRedirectURL
      = go "https://example.com/landing?utm_source=new" := by
  decide

/-- C7: when the lookup finds a mapping, the handler answers 307 with the location
built from that mapping both when `LogClick` returns `nil` and when it returns a
persistence error: a failed click insert neither changes nor prevents the redirect. -/
theorem c7_click_log_failure_keeps_redirect (db : DB) (req : handlers.Request) (now : Time)
    (m : models.URLMapping) (e : String)
    (h : database.Database.GetURLBySlug { Client := db } req.slug = .ok m) :
    (tracking.LogClick { db with createErr := none } req.slug req.ClientIP req.Referer
        req.UserAgent now).1 = .ok ()
    ∧ (tracking.LogClick { db with createErr := some e } req.slug req.ClientIP req.Referer
        req.UserAgent now).1 = .error e
    ∧ (handlers.HandleRedirect { db with createErr := none } req now).response
        = .Redirect StatusTemporaryRedirect (handlers.buildRedirectURL m)
    ∧ (handlers.HandleRedirect { db with createErr := some e } req now).response
        = .Redirect StatusTemporaryRedirect (handlers.buildRedirectURL m) := by
  refine ⟨by simp [tracking.LogClick, tracking.createClickLog],
    by simp [tracking.LogClick, tracking.createClickLog], ?_, ?_⟩
  · exact handleRedirect_found _ req now m (by rw [getURLBySlug_createErr]; exact h)
  · exact handleRedirect_found _ req now m (by rw [getURLBySlug_createErr]; exact h)

/-- C7 at the store holding `promo`, with the insert failing with "connection refused". -/
theorem c7_click_log_failure_keeps_redirect_witness :
    (tracking.LogClick { examples.promoStore with createErr := none } (go "promo") [] [] []
        7).1 = .ok ()
    ∧ (tracking.LogClick { examples.promoStore with createErr := some "connection refused" }
        (go "promo") [] [] [] 7).1 = .error "connection refused"
    ∧ (handlers.HandleRedirect { examples.promoStore with createErr := none }
        { slug := go "promo" } 7).response
        = .Redirect StatusTemporaryRedirect (handlers.buildRedirectURL examples.promo)
    ∧ (handlers.HandleRedirect { examples.promoStore with createErr := some "connection refused" }
        { slug := go "promo" } 7).response
        = .Redirect StatusTemporaryRedirect (handlers.buildRedirectURL examples.promo) :=
  c7_click_log_failure_keeps_redirect examples.promoStore { slug := go "promo" } 7
    examples.promo "connection refused" (by decide)

/-- C8 (code evaluated at the failing input): a mapping whose other fields are valid
and whose `ExpiresAt` equals the current time passes `Validate`; one nanosecond
earlier it is rejected with the expiry error. -/
theorem c8_validate_accepts_expiry_equal_to_now :
    ({ examples.promo with ExpiresAt := 6 * examples.second } : models.URLMapping).Validate
        (6 * examples.second) = .ok ()
    ∧ ({ examples.promo with ExpiresAt := 6 * examples.second - 1 } : models.URLMapping).Validate
        (6 * examples.second) = .error "expiration time must be in the future" := by
  decide

/-- With slug, destination and UTM fields valid and `ExpiresAt` set, `Validate` returns
`nil` exactly when `ExpiresAt` is not before the current time. -/
theorem validate_expiry_iff (m : models.URLMapping) (now : Time)
    (hslug : strings.TrimSpace m.Slug ≠ [])
    (hdest : (url.ParseRequestURI m.DestinationURL).isSome)
    (hs : m.UTMSource = [] ∨ models.isValidUTMParam m.UTMSource)
    (hm : m.UTMMedium = [] ∨ models.isValidUTMParam m.UTMMedium)
    (hc : m.UTMCampaign = [] ∨ models.isValidUTMParam m.UTMCampaign)
    (hexp : m.ExpiresAt ≠ 0) :
    m.Validate now = .ok () ↔ ¬ m.ExpiresAt < now := by
  have h1 : ¬ (m.UTMSource ≠ [] ∧ models.isValidUTMParam m.UTMSource = false) := by
    rintro ⟨a, b⟩; rcases hs with hs | hs <;> simp_all
  have h2 : ¬ (m.UTMMedium ≠ [] ∧ models.isValidUTMParam m.UTMMedium = false) := by
    rintro ⟨a, b⟩; rcases hm with hm | hm <;> simp_all
  have h3 : ¬ (m.UTMCampaign ≠ [] ∧ models.isValidUTMParam m.UTMCampaign = false) := by
    rintro ⟨a, b⟩; rcases hc with hc | hc <;> simp_all
  have h4 : (url.ParseRequestURI m.DestinationURL).isNone = false := by
    cases hp : url.ParseRequestURI m.DestinationURL <;> simp_all
  simp only [models.URLMapping.Validate, beq_iff_eq, hslug, if_false, h4, Bool.false_eq_true,
    bne_iff_ne, ne_eq, Bool.and_eq_true, Bool.not_eq_true', h1, h2, h3, Time.IsZero,
    Time.Before, decide_eq_false_iff_not, decide_eq_true_eq, hexp, not_false_eq_true, true_and]
  by_cases hlt : m.ExpiresAt < now <;> simp [hlt]

/-- `firstMatch` on an empty table is the default. -/
theorem firstMatch_nil (dflt : String) (ua : GoString) :
    tracking.firstMatch [] dflt ua = dflt := rfl

/-- `firstMatch` tries the rules in order. -/
theorem firstMatch_cons (r : tracking.Rule) (rules : List tracking.Rule) (dflt : String)
    (ua : GoString) :
    tracking.firstMatch (r :: rules) dflt ua
      = if strings.Contains ua r.keyword then r.label else tracking.firstMatch rules dflt ua := by
  unfold tracking.firstMatch
  rw [List.find?_cons]
  by_cases h : strings.Contains ua r.keyword = true
  · simp [h]
  · simp only [Bool.not_eq_true] at h
    simp [h]

/-- C10: for every user agent, `ParseUserAgent` returns for browser, OS and device the
label of the first rule in table order whose keyword is a substring of the lower-cased
user agent, with the defaults "Unknown", "Unknown" and "Desktop"; and
"Mozilla/5.0 (Linux; Android 10) Mobile Chrome" is classified as Chrome, Linux, Mobile. -/
theorem c10_parse_user_agent_first_match (caseTable : Nat → Nat) :
    (∀ userAgent : GoString,
      tracking.ParseUserAgent caseTable userAgent
        = (tracking.firstMatch tracking.browserRules "Unknown"
              (strings.ToLower caseTable userAgent),
           tracking.firstMatch tracking.osRules "Unknown"
              (strings.ToLower caseTable userAgent),
           tracking.firstMatch tracking.deviceRules "Desktop"
              (strings.ToLower caseTable userAgent)))
    ∧ tracking.ParseUserAgent caseTable (go "Mozilla/5.0 (Linux; Android 10) Mobile Chrome")
        = ("Chrome", "Linux", "Mobile") := by
  constructor
  · intro userAgent
    simp only [tracking.ParseUserAgent, tracking.browserRules, tracking.osRules,
      tracking.deviceRules, firstMatch_cons, firstMatch_nil]
  · rfl

/-! ## UTM field validation -/

/-- An ASCII byte decodes to itself, with width one. -/
theorem decodeRune_ascii (c : Byte) (s : GoString) (h : c.val < 128) :
    utf8.DecodeRune (c :: s) = (c.val, 1) := by
  simp [utf8.DecodeRune, h]

/-- A multi-byte rune lies outside ASCII. -/
theorem decodeMulti_ge (b0 sz lo hi : Nat) (rest : GoString)
    (h2 : sz ≤ 2 → 2 ≤ b0 % 0x20)
    (h3 : sz = 3 → 1 ≤ b0 % 0x10 ∨ 0xA0 ≤ lo)
    (h4 : 4 ≤ sz → 1 ≤ b0 % 0x08 ∨ 0x90 ≤ lo)
    (hlo : 0x80 ≤ lo) (hhi : hi ≤ 0xBF) :
    128 ≤ (utf8.decodeMulti b0 sz lo hi rest).1 := by
  rcases rest with _ | ⟨s1, _ | ⟨s2, _ | ⟨s3, rest⟩⟩⟩ <;>
    simp only [utf8.decodeMulti, utf8.RuneError] <;>
    split_ifs <;> dsimp only <;> omega

/-- A string starting with a non-ASCII byte decodes to a rune outside ASCII. -/
theorem decodeRune_nonascii (c : Byte) (s : GoString) (h : 128 ≤ c.val) :
    128 ≤ (utf8.DecodeRune (c :: s)).1 := by
  simp only [utf8.DecodeRune]
  rw [if_neg (by omega)]
  split
  · simp [utf8.RuneError]
  · apply decodeMulti_ge <;> split_ifs <;> omega

/-- A rune of the UTM class is ASCII. -/
theorem isUTMRune_lt (r : Nat) (h : models.isUTMRune r = true) : r < 128 := by
  simp [models.isUTMRune] at h
  omega

/-- The predicate handed to `IndexFunc` is the complement of the UTM class. -/
theorem notUTMRune_eq (r : Nat) : models.notUTMRune r = !models.isUTMRune r := by
  rw [Bool.eq_iff_iff]
  simp only [models.notUTMRune, models.isUTMRune, Bool.not_eq_true', Bool.or_eq_true,
    Bool.and_eq_true, decide_eq_true_eq, beq_iff_eq, Bool.or_eq_false_iff,
    Bool.and_eq_false_iff, Bool.not_eq_true, beq_eq_false_iff_ne, decide_eq_false_iff_not]
  tauto

/-- `IndexFunc` finds no rune outside the class exactly when every byte is in it. -/
theorem indexFuncFuel_none (fuel : Nat) (s : GoString) (hf : s.length ≤ fuel) :
    strings.IndexFuncFuel models.notUTMRune fuel s = none
      ↔ ∀ b ∈ s, models.isUTMRune b.val = true := by
  induction fuel generalizing s with
  | zero =>
    have : s = [] := List.length_eq_zero.mp (Nat.le_zero.mp hf)
    subst this
    simp [strings.IndexFuncFuel]
  | succ n ih =>
    cases s with
    | nil => simp [strings.IndexFuncFuel]
    | cons c t =>
      have hlen : t.length ≤ n := by simpa using hf
      by_cases hc : models.isUTMRune c.val = true
      · have hlt := isUTMRune_lt _ hc
        simp only [strings.IndexFuncFuel, decodeRune_ascii c t hlt, notUTMRune_eq, hc,
          Bool.not_true, Bool.false_eq_true, if_false, List.drop_succ_cons, List.drop_zero,
          Option.map_eq_none', ih t hlen, List.mem_cons, forall_eq_or_imp, true_and]
      · have hnot : models.notUTMRune (utf8.DecodeRune (c :: t)).1 = true := by
          rw [notUTMRune_eq]
          by_cases hlt : c.val < 128
          · rw [decodeRune_ascii c t hlt]; simpa using hc
          · have := decodeRune_nonascii c t (by omega)
            cases hr : models.isUTMRune (utf8.DecodeRune (c :: t)).1
            · rfl
            · have := isUTMRune_lt _ hr; omega
        simp only [strings.IndexFuncFuel, hnot, if_true, List.mem_cons, forall_eq_or_imp, hc,
          false_and, reduceCtorEq]

/-- The runes of a string are all in the UTM class exactly when its bytes are, and then
there are as many runes as bytes. -/
theorem runesFuel_utm (fuel : Nat) (s : GoString) (hf : s.length ≤ fuel) :
    ((utf8.runesFuel fuel s).all models.isUTMRune = true
        ↔ ∀ b ∈ s, models.isUTMRune b.val = true)
    ∧ ((∀ b ∈ s, models.isUTMRune b.val = true) → (utf8.runesFuel fuel s).length = s.length) := by
  induction fuel generalizing s with
  | zero =>
    have : s = [] := List.length_eq_zero.mp (Nat.le_zero.mp hf)
    subst this
    simp [utf8.runesFuel]
  | succ n ih =>
    cases s with
    | nil => simp [utf8.runesFuel]
    | cons c t =>
      have hlen : t.length ≤ n := by simpa using hf
      by_cases hc : models.isUTMRune c.val = true
      · have hlt := isUTMRune_lt _ hc
        have := ih t hlen
        simp only [utf8.runesFuel, decodeRune_ascii c t hlt, List.drop_succ_cons, List.drop_zero,
          List.all_cons, hc, Bool.true_and, this.1, List.mem_cons, forall_eq_or_imp, true_and,
          List.length_cons, true_iff]
        intro h
        rw [this.2 h]
      · have hnot : models.isUTMRune (utf8.DecodeRune (c :: t)).1 = false := by
          by_cases hlt : c.val < 128
          · rw [decodeRune_ascii c t hlt]; simpa using hc
          · have := decodeRune_nonascii c t (by omega)
            cases hr : models.isUTMRune (utf8.DecodeRune (c :: t)).1
            · rfl
            · have := isUTMRune_lt _ hr; omega
        simp only [utf8.runesFuel, List.all_cons, hnot, Bool.false_and, Bool.false_eq_true,
          List.mem_cons, forall_eq_or_imp, hc, false_and, false_iff, not_false_eq_true,
          false_implies, and_self]

/-- `isValidUTMParam` accepts exactly the UTM tokens. -/
theorem isValidUTMParam_iff (s : GoString) :
    models.isValidUTMParam s = models.isUTMToken s := by
  have h1 := indexFuncFuel_none s.length s (Nat.le_refl _)
  have h2 := runesFuel_utm s.length s (Nat.le_refl _)
  simp only [models.isValidUTMParam, models.isUTMToken, strings.IndexFunc, utf8.runes]
  by_cases hall : ∀ b ∈ s, models.isUTMRune b.val = true
  · have e1 := h1.mpr hall
    have e2 := h2.1.mpr hall
    have e3 := h2.2 hall
    simp only [e1, e2, e3, beq_self_eq_true, Bool.and_true, gt_iff_lt]
    rfl
  · have e1 : strings.IndexFuncFuel models.notUTMRune s.length s ≠ none := fun h => hall (h1.mp h)
    have e2 : (utf8.runesFuel s.length s).all models.isUTMRune = false := by
      cases h : (utf8.runesFuel s.length s).all models.isUTMRune
      · rfl
      · exact absurd (h2.1.mp h) hall
    have e3 : (strings.IndexFuncFuel models.notUTMRune s.length s == none) = false := by
      cases h : strings.IndexFuncFuel models.notUTMRune s.length s
      · exact absurd h e1
      · rfl
    simp only [e2, e3, Bool.and_false]

/-- The test `Validate` applies to a UTM field rejects exactly the fields that are
neither empty nor a UTM token. -/
theorem utm_check_eq (f : GoString) :
    (f != [] && !models.isValidUTMParam f) = !models.utmFieldOk f := by
  rw [isValidUTMParam_iff, models.utmFieldOk]
  cases h1 : (f == []) <;> cases h2 : models.isUTMToken f <;> simp [bne, h1]

/-- `Validate` with slug, destination and expiry in order, by the state of the three
UTM fields. -/
theorem validate_utm_cases (m : models.URLMapping) (now : Time)
    (hslug : strings.TrimSpace m.Slug ≠ [])
    (hdest : (url.ParseRequestURI m.DestinationURL).isSome)
    (hexp : m.ExpiresAt = 0 ∨ ¬ m.ExpiresAt < now) :
    m.Validate now =
      if models.utmFieldOk m.UTMSource = false then .error "invalid UTM source"
      else if models.utmFieldOk m.UTMMedium = false then .error "invalid UTM medium"
      else if models.utmFieldOk m.UTMCampaign = false then .error "invalid UTM campaign"
      else .ok () := by
  have h4 : (url.ParseRequestURI m.DestinationURL).isNone = false := by
    cases hp : url.ParseRequestURI m.DestinationURL <;> simp_all
  have h5 : (!Time.IsZero m.ExpiresAt && Time.Before m.ExpiresAt now) = false := by
    rcases hexp with h | h <;> simp [Time.IsZero, Time.Before, h]
  simp only [models.URLMapping.Validate, beq_iff_eq, hslug, if_false, h4, Bool.false_eq_true,
    utm_check_eq, h5, Bool.not_eq_true']

/-- C9 (amended): with slug, destination and expiry valid, `Validate` returns `nil`
exactly when each UTM field is empty or a string of 1 to 100 characters of
`[A-Za-z0-9_-]`; otherwise it returns the invalid-UTM error of the first offending
field in the order source, medium, campaign. -/
theorem c9_validate_utm_fields (m : models.URLMapping) (now : Time)
    (hslug : strings.TrimSpace m.Slug ≠ [])
    (hdest : (url.ParseRequestURI m.DestinationURL).isSome)
    (hexp : m.ExpiresAt = 0 ∨ ¬ m.ExpiresAt < now) :
    (m.Validate now = .ok () ↔
        models.utmFieldOk m.UTMSource = true ∧ models.utmFieldOk m.UTMMedium = true
          ∧ models.utmFieldOk m.UTMCampaign = true)
    ∧ (models.utmFieldOk m.UTMSource = false →
        m.Validate now = .error "invalid UTM source")
    ∧ (models.utmFieldOk m.UTMSource = true → models.utmFieldOk m.UTMMedium = false →
        m.Validate now = .error "invalid UTM medium")
    ∧ (models.utmFieldOk m.UTMSource = true → models.utmFieldOk m.UTMMedium = true →
        models.utmFieldOk m.UTMCampaign = false →
        m.Validate now = .error "invalid UTM campaign") := by
  rw [validate_utm_cases m now hslug hdest hexp]
  cases models.utmFieldOk m.UTMSource <;> cases models.utmFieldOk m.UTMMedium <;>
    cases models.utmFieldOk m.UTMCampaign <;> simp

/-- C9 (amended) at the mapping `promo`, whose three UTM fields are tokens. -/
theorem c9_validate_utm_fields_witness :
    (examples.promo.Validate 7 = .ok () ↔
        models.utmFieldOk examples.promo.UTMSource = true
          ∧ models.utmFieldOk examples.promo.UTMMedium = true
          ∧ models.utmFieldOk examples.promo.UTMCampaign = true)
    ∧ (models.utmFieldOk examples.promo.UTMSource = false →
        examples.promo.Validate 7 = .error "invalid UTM source")
    ∧ (models.utmFieldOk examples.promo.UTMSource = true →
        models.utmFieldOk examples.promo.UTMMedium = false →
        examples.promo.Validate 7 = .error "invalid UTM medium")
    ∧ (models.utmFieldOk examples.promo.UTMSource = true →
        models.utmFieldOk examples.promo.UTMMedium = true →
        models.utmFieldOk examples.promo.UTMCampaign = false →
        examples.promo.Validate 7 = .error "invalid UTM campaign") :=
  c9_validate_utm_fields examples.promo 7 (by decide) (by decide) (by decide)

/-- C9 (counterexample): slug, destination and expiry are valid and the medium `c d` is
non-empty and contains a space, yet `Validate` does not return the invalid-UTM error
for the medium: the source `a b` is checked first and its error is returned. -/
theorem c9_medium_error_masked_by_source :
    strings.TrimSpace examples.twoBadFields.Slug ≠ []
    ∧ (url.ParseRequestURI examples.twoBadFields.DestinationURL).isSome = true
    ∧ examples.twoBadFields.ExpiresAt = 0
    ∧ examples.twoBadFields.UTMMedium = go "c d"
    ∧ models.utmFieldOk examples.twoBadFields.UTMMedium = false
    ∧ examples.twoBadFields.Validate 7 ≠ .error "invalid UTM medium"
    ∧ examples.twoBadFields.Validate 7 = .error "invalid UTM source" := by
  decide

/-! ## IP anonymisation -/

/-- A successful run of the IPv4 field loop yields four octets, read only digits and
dots, and met a dot if fewer than three fields were complete. -/
theorem parseIPv4FieldsLoop_spec (n : Nat) (s : GoString) :
    ∀ (i : Nat) (prev : Option Byte) (val pos digLen : Nat) (fields f : List Byte),
      net.parseIPv4FieldsLoop n s i prev val pos digLen fields = some f →
      fields.length = pos → pos ≤ 3 →
      f.length = 4 ∧ (∀ c ∈ s, inRange '0' '9' c = true ∨ isCh c '.' = true)
        ∧ (pos < 3 → ∃ c ∈ s, isCh c '.' = true) := by
  induction s with
  | nil =>
    intro i prev val pos digLen fields f h hlen hpos
    simp only [net.parseIPv4FieldsLoop] at h
    split_ifs at h with h1
    simp only [Option.some.injEq] at h
    subst h
    refine ⟨by simp; omega, by simp, fun h2 => absurd h2 h1⟩
  | cons c t ih =>
    intro i prev val pos digLen fields f h hlen hpos
    simp only [net.parseIPv4FieldsLoop] at h
    split_ifs at h with h1 h2 h3 h4 h5 h6
    · have := ih _ _ _ _ _ _ _ h hlen hpos
      refine ⟨this.1, ?_, ?_⟩
      · intro x hx
        rcases List.mem_cons.mp hx with rfl | hx
        · exact Or.inl h1
        · exact this.2.1 x hx
      · intro hp
        obtain ⟨x, hx, hx2⟩ := this.2.2 hp
        exact ⟨x, List.mem_cons_of_mem _ hx, hx2⟩
    · have := ih _ _ _ _ _ _ _ h (by simp [hlen]) (by omega)
      refine ⟨this.1, ?_, ?_⟩
      · intro x hx
        rcases List.mem_cons.mp hx with rfl | hx
        · exact Or.inr h4
        · exact this.2.1 x hx
      · intro _
        exact ⟨c, List.mem_cons_self _ _, h4⟩

/-- Go `netip.parseIPv4Fields` returns four octets. -/
theorem parseIPv4Fields_length (s : GoString) (f : List Byte)
    (h : net.parseIPv4Fields s = some f) : f.length = 4 :=
  (parseIPv4FieldsLoop_spec s.length s 0 none 0 0 0 [] f h rfl (by omega)).1

/-- On a string of digits and dots with a dot, `ParseIP` takes the IPv4 parser. -/
theorem parseIPLoop_dotted (s rest : GoString)
    (hall : ∀ c ∈ rest, inRange '0' '9' c = true ∨ isCh c '.' = true)
    (hdot : ∃ c ∈ rest, isCh c '.' = true) :
    net.parseIPLoop s rest = (net.parseIPv4Fields s).map (fun f => net.v4InV6Prefix ++ f) := by
  induction rest with
  | nil => obtain ⟨c, hc, _⟩ := hdot; cases hc
  | cons c t ih =>
    by_cases hc : isCh c '.' = true
    · simp [net.parseIPLoop, hc]
    · have hd : inRange '0' '9' c = true := by
        rcases hall c (List.mem_cons_self _ _) with h | h
        · exact h
        · exact absurd h hc
      have h1 : isCh c ':' = false := by
        simp [inRange, isCh] at hd ⊢; omega
      have h2 : isCh c '%' = false := by
        simp [inRange, isCh] at hd ⊢; omega
      simp only [net.parseIPLoop, hc, h1, h2, Bool.false_eq_true, if_false]
      apply ih
      · intro x hx; exact hall x (List.mem_cons_of_mem _ hx)
      · obtain ⟨x, hx, hx2⟩ := hdot
        rcases List.mem_cons.mp hx with rfl | hx
        · exact absurd hx2 hc
        · exact ⟨x, hx, hx2⟩

/-- A dotted literal `a.b.c.d` parses to the IPv4-mapped 16-byte address. -/
theorem parseIP_dotted (s : GoString) (f : List Byte) (h : net.parseIPv4Fields s = some f) :
    net.ParseIP s = some (net.v4InV6Prefix ++ f) := by
  have := parseIPv4FieldsLoop_spec s.length s 0 none 0 0 0 [] f h rfl (by omega)
  rw [net.ParseIP, parseIPLoop_dotted s s this.2.1 (this.2.2 (by omega)), h]
  rfl

/-- The IPv6 loop keeps the address 16 bytes long, the write offset even and at most
16, and the ellipsis at or before the write offset. -/
theorem parseIPv6Loop_inv (fuel : Nat) :
    ∀ (s : GoString) (i : Nat) (ell : Option Nat) (ip : List Byte)
      (s2 : GoString) (i2 : Nat) (ell2 : Option Nat) (ip2 : List Byte),
      net.parseIPv6Loop fuel s i ell ip = some (s2, i2, ell2, ip2) →
      ip.length = 16 → i ≤ 16 → i % 2 = 0 → (∀ e, ell = some e → e ≤ i) →
      ip2.length = 16 ∧ i2 ≤ 16 ∧ (∀ e, ell2 = some e → e ≤ i2) := by
  induction fuel with
  | zero =>
    intro s i ell ip s2 i2 ell2 ip2 h hlen hi hpar hell
    simp only [net.parseIPv6Loop, Option.some.injEq, Prod.mk.injEq] at h
    obtain ⟨_, rfl, rfl, rfl⟩ := h
    exact ⟨hlen, hi, hell⟩
  | succ n ih =>
    intro s i ell ip s2 i2 ell2 ip2 h hlen hi hpar hell
    simp only [net.parseIPv6Loop] at h
    by_cases h1 : i < 16
    swap
    · simp only [h1, not_false_eq_true, if_true, Option.some.injEq, Prod.mk.injEq] at h
      obtain ⟨_, rfl, rfl, rfl⟩ := h
      exact ⟨hlen, hi, hell⟩
    simp only [h1, not_true_eq_false, if_false] at h
    cases hg : net.hexGroup s 0 0 with
    | none => simp only [hg] at h; cases h
    | some r =>
      obtain ⟨off, acc, rest⟩ := r
      simp only [hg] at h
      by_cases h2 : off = 0
      · simp only [h2, if_true] at h; cases h
      simp only [h2, if_false] at h
      by_cases h3 : rest.head? = some (ch '.')
      · simp only [h3, if_true] at h
        by_cases h4 : ell.isNone = true ∧ i ≠ 12
        · rw [if_pos h4] at h; cases h
        rw [if_neg h4] at h
        by_cases h5 : i + 4 > 16
        · simp only [h5, if_true] at h; cases h
        rw [if_neg h5] at h
        cases hf : net.parseIPv4Fields s with
        | none => simp only [hf] at h; cases h
        | some f =>
          simp only [hf, Option.some.injEq, Prod.mk.injEq] at h
          obtain ⟨_, rfl, rfl, rfl⟩ := h
          have hf4 := parseIPv4Fields_length s f hf
          refine ⟨?_, by omega, fun e he => by have := hell e he; omega⟩
          simp only [List.length_append, List.length_take, List.length_drop, hlen, hf4]
          omega
      simp only [h3, if_false] at h
      have hlen2 : ((ip.set i (Fin.ofNat (acc / 256))).set (i + 1)
          (Fin.ofNat (acc % 256))).length = 16 := by simp [hlen]
      cases rest with
      | nil =>
        simp only [Option.some.injEq, Prod.mk.injEq] at h
        obtain ⟨_, rfl, rfl, rfl⟩ := h
        exact ⟨hlen2, by omega, fun e he => by have := hell e he; omega⟩
      | cons c more =>
        simp only at h
        by_cases h6 : (!isCh c ':') = true
        · simp only [h6, if_true] at h; cases h
        rw [if_neg h6] at h
        cases more with
        | nil => simp only at h; cases h
        | cons c2 more2 =>
          simp only at h
          by_cases h7 : isCh c2 ':' = true
          · simp only [h7, if_true] at h
            by_cases h8 : ell.isSome = true
            · simp only [h8, if_true] at h; cases h
            rw [if_neg h8] at h
            by_cases h9 : more2.isEmpty = true
            · simp only [h9, if_true, Option.some.injEq, Prod.mk.injEq] at h
              obtain ⟨_, rfl, rfl, rfl⟩ := h
              exact ⟨hlen2, by omega, fun e he => by cases he; omega⟩
            · rw [if_neg h9] at h
              exact ih _ _ _ _ _ _ _ _ h hlen2 (by omega) (by omega)
                (fun e he => by cases he; omega)
          · rw [if_neg h7] at h
            exact ih _ _ _ _ _ _ _ _ h hlen2 (by omega) (by omega)
              (fun e he => by have := hell e he; omega)

/-- Go `netip.parseIPv6` returns 16 bytes. -/
theorem parseIPv6_length (s : GoString) (ip : List Byte) (zone : GoString)
    (h : net.parseIPv6 s = some (ip, zone)) : ip.length = 16 := by
  simp only [net.parseIPv6] at h
  by_cases h1 : ((strings.Cut s (ch '%')).2.2 && (strings.Cut s (ch '%')).2.1.isEmpty) = true
  · rw [if_pos h1] at h; cases h
  rw [if_neg h1] at h
  by_cases h2 : (strings.HasPrefix (strings.Cut s (ch '%')).1 (go "::")
      && (if strings.HasPrefix (strings.Cut s (ch '%')).1 (go "::") = true
          then List.drop 2 (strings.Cut s (ch '%')).1
          else (strings.Cut s (ch '%')).1).isEmpty) = true
  · rw [if_pos h2] at h
    simp only [Option.some.injEq, Prod.mk.injEq] at h
    rw [← h.1]; simp
  rw [if_neg h2] at h
  split at h
  · cases h
  · rename_i rest i ell ip2 hl
    have inv := parseIPv6Loop_inv 9 _ _ _ _ _ _ _ _ hl (by simp) (by omega) (by omega)
      (fun e he => by split_ifs at he; simp_all)
    by_cases h3 : (!rest.isEmpty) = true
    · rw [if_pos h3] at h; cases h
    rw [if_neg h3] at h
    by_cases h4 : i < 16
    · rw [if_pos h4] at h
      cases ell with
      | none => simp only at h; cases h
      | some e =>
        simp only [Option.some.injEq, Prod.mk.injEq] at h
        have he := inv.2.2 e rfl
        rw [← h.1]
        simp only [List.length_append, List.length_take, List.length_drop,
          List.length_replicate, inv.1]
        omega
    · rw [if_neg h4] at h
      by_cases h5 : ell.isSome = true
      · rw [if_pos h5] at h; cases h
      · rw [if_neg h5] at h
        simp only [Option.some.injEq, Prod.mk.injEq] at h
        rw [← h.1]; exact inv.1

/-- The scan of `ParseIP` returns 16 bytes. -/
theorem parseIPLoop_length (s rest : GoString) (ip : net.IP)
    (h : net.parseIPLoop s rest = some ip) : ip.length = 16 := by
  induction rest with
  | nil => cases h
  | cons c t ih =>
    simp only [net.parseIPLoop] at h
    split_ifs at h with h1 h2 h3
    · cases hf : net.parseIPv4Fields s with
      | none => rw [hf] at h; cases h
      | some f =>
        rw [hf] at h
        simp only [Option.map_some', Option.some.injEq] at h
        rw [← h]
        simp [net.v4InV6Prefix, parseIPv4Fields_length s f hf]
    · split at h
      · rename_i ip2 zone hp
        split_ifs at h
        simp only [Option.some.injEq] at h
        rw [← h]; exact parseIPv6_length s ip2 zone hp
      · cases h
    · exact ih h

/-- Go `net.ParseIP` returns a 16-byte address. -/
theorem parseIP_length (s : GoString) (ip : net.IP) (h : net.ParseIP s = some ip) :
    ip.length = 16 := parseIPLoop_length s s ip h

set_option maxRecDepth 100000 in
/-- Masking a byte with `0xff` keeps it. -/
theorem land_ff : ∀ x : Byte, (Fin.ofNat (x.val &&& (0xff : Byte).val) : Byte) = x := by
  decide

/-- Masking a byte with `0` clears it. -/
theorem land_zero (x : Byte) : (Fin.ofNat (x.val &&& (0 : Byte).val) : Byte) = 0 := by
  simp [Fin.ofNat]

/-- Masking against zero bytes gives zero bytes. -/
theorem zipWith_land_zeros (l : List Byte) :
    List.zipWith (fun (a b : Byte) => (Fin.ofNat (a.val &&& b.val) : Byte)) l (List.replicate l.length 0)
      = List.replicate l.length 0 := by
  induction l with
  | nil => rfl
  | cons x t ih =>
    simp only [List.length_cons, List.replicate_succ, List.zipWith_cons_cons, land_zero, ih]

/-- Masking against `k` bytes `0xff` followed by zero bytes keeps the first `k` bytes and
clears the rest. -/
theorem zipWith_land_prefix (k : Nat) :
    ∀ (l : List Byte) (m : Nat), l.length = k + m →
      List.zipWith (fun (a b : Byte) => (Fin.ofNat (a.val &&& b.val) : Byte)) l
          (List.replicate k 0xff ++ List.replicate m 0)
        = l.take k ++ List.replicate m 0 := by
  induction k with
  | zero =>
    intro l m h
    simp only [Nat.zero_add] at h
    simp only [List.replicate_zero, List.nil_append, List.take_zero]
    rw [← h]; exact zipWith_land_zeros l
  | succ k ih =>
    intro l m h
    cases l with
    | nil => simp only [List.length_nil] at h; omega
    | cons x t =>
      have ht : t.length = k + m := by simp only [List.length_cons] at h; omega
      simp only [List.replicate_succ, List.cons_append, List.zipWith_cons_cons, land_ff,
        List.take_succ_cons, ih t m ht]

/-- `CIDRMask(24, 32)` is `255.255.255.0`. -/
theorem cidrMask_24 : net.CIDRMask 24 32 = List.replicate 3 0xff ++ List.replicate 1 0 := by
  decide

/-- `CIDRMask(48, 128)` is six bytes `0xff` followed by ten zero bytes. -/
theorem cidrMask_48 : net.CIDRMask 48 128 = List.replicate 6 0xff ++ List.replicate 10 0 := by
  decide

/-- Masking a 16-byte IPv4-mapped address with `/24` gives the 4-byte address with the
last octet cleared. -/
theorem mask_v4 (ip : net.IP) (a b c d : Byte) (hlen : ip.length = 16)
    (h4 : net.IP.To4 ip = some [a, b, c, d]) :
    net.IP.Mask ip (net.CIDRMask 24 32) = [a, b, c, 0] := by
  simp only [net.IP.To4, hlen, net.IPv4len, net.IPv6len] at h4
  rw [if_neg (by omega)] at h4
  by_cases hp : ip.take 12 = net.v4InV6Prefix
  · simp only [hp, and_self, if_true, Option.some.injEq] at h4
    have hz := zipWith_land_prefix 3 [a, b, c, d] 1 rfl
    have hm : (List.replicate 3 (0xff : Byte) ++ List.replicate 1 0).length = 4 := rfl
    unfold net.IP.Mask
    simp only [cidrMask_24, hm, hlen, net.IPv4len, net.IPv6len, hp, h4,
      show ((4 : Nat) = 16) = False from by simp, show ((16 : Nat) = 4) = False from by simp,
      false_and, and_self, if_false, if_true, List.length_cons, List.length_nil, ne_eq,
      not_true_eq_false]
    exact hz
  · simp [hp] at h4

/-- Masking a 16-byte address with `/48` keeps its first six bytes and clears the other
ten. -/
theorem mask_v6 (ip : net.IP) (hlen : ip.length = 16) :
    net.IP.Mask ip (net.CIDRMask 48 128) = ip.take 6 ++ List.replicate 10 0 := by
  have hm : (List.replicate 6 (0xff : Byte) ++ List.replicate 10 0).length = 16 := rfl
  unfold net.IP.Mask
  simp only [cidrMask_48, hm, hlen, net.IPv4len, net.IPv6len,
    show ((16 : Nat) = 4) = False from by simp, false_and, and_false, if_false, ne_eq,
    not_true_eq_false]
  exact zipWith_land_prefix 6 ip 10 hlen

/-- The text of a 4-byte address is its dotted-decimal form. -/
theorem string_v4 (a b c d : Byte) : net.IP.String [a, b, c, d] = net.string4 [a, b, c, d] := by
  simp [net.IP.String, net.IP.To4, net.IPv4len, net.IPv6len]

/-- C5 (amended): an input that parses to an IPv4 address `a.b.c.d` (a dotted literal,
or a literal whose parsed address `To4` recognises as IPv4) is stored as `a.b.c.0`; an
input that parses to any other address is stored as the text of its /48 prefix, the
first six bytes unchanged and the last ten zero. `ExtractNetworkInfo` returns the same
text, and `LogClick` stores it in the `IPAddress` column. -/
theorem c5_anonymize_masks (s : GoString) (ip : net.IP) (hp : net.ParseIP s = some ip) :
    (∀ a b c d : Byte, net.parseIPv4Fields s = some [a, b, c, d] →
        tracking.anonymize s = net.string4 [a, b, c, 0])
    ∧ (∀ a b c d : Byte, net.IP.To4 ip = some [a, b, c, d] →
        tracking.anonymize s = net.string4 [a, b, c, 0])
    ∧ (net.IP.To4 ip = none →
        tracking.anonymize s = net.IP.String (ip.take 6 ++ List.replicate 10 0))
    ∧ tracking.ExtractNetworkInfo s = (tracking.anonymize s, [])
    ∧ (∀ (db : DB) (slug referrer userAgent : GoString) (now : Time), db.createErr = none →
        ((tracking.LogClick db slug s referrer userAgent now).2.click_logs.map
            (fun r => r.IPAddress))
          = db.click_logs.map (fun r => r.IPAddress) ++ [tracking.anonymize s]) := by
  have hlen := parseIP_length s ip hp
  have hv4 : ∀ a b c d : Byte, net.IP.To4 ip = some [a, b, c, d] →
      tracking.anonymize s = net.string4 [a, b, c, 0] := by
    intro a b c d h4
    simp only [tracking.anonymize, hp, h4, Option.isSome_some, if_true, mask_v4 ip a b c d hlen h4,
      string_v4]
  refine ⟨?_, hv4, ?_, ?_, ?_⟩
  · intro a b c d hf
    have hd := parseIP_dotted s _ hf
    rw [hp] at hd
    simp only [Option.some.injEq] at hd
    apply hv4
    rw [hd]
    rfl
  · intro h6
    simp only [tracking.anonymize, hp, h6, Option.isSome_none, Bool.false_eq_true, if_false,
      mask_v6 ip hlen]
  · simp only [tracking.ExtractNetworkInfo, tracking.anonymize, hp]
  · intro db slug referrer userAgent now hc
    simp [tracking.LogClick, tracking.createClickLog, hc]

/-- C5 (amended) at the literal `203.0.113.77`. -/
theorem c5_anonymize_masks_witness :
    (∀ a b c d : Byte, net.parseIPv4Fields (go "203.0.113.77") = some [a, b, c, d] →
        tracking.anonymize (go "203.0.113.77") = net.string4 [a, b, c, 0])
    ∧ (∀ a b c d : Byte, net.IP.To4 examples.dottedAddr = some [a, b, c, d] →
        tracking.anonymize (go "203.0.113.77") = net.string4 [a, b, c, 0])
    ∧ (net.IP.To4 examples.dottedAddr = none →
        tracking.anonymize (go "203.0.113.77")
          = net.IP.String (examples.dottedAddr.take 6 ++ List.replicate 10 0))
    ∧ tracking.ExtractNetworkInfo (go "203.0.113.77")
        = (tracking.anonymize (go "203.0.113.77"), [])
    ∧ (∀ (db : DB) (slug referrer userAgent : GoString) (now : Time), db.createErr = none →
        ((tracking.LogClick db slug (go "203.0.113.77") referrer userAgent now).2.click_logs.map
            (fun r => r.IPAddress))
          = db.click_logs.map (fun r => r.IPAddress)
              ++ [tracking.anonymize (go "203.0.113.77")]) :=
  c5_anonymize_masks (go "203.0.113.77") examples.dottedAddr (by decide)

/-- C5 (counterexample): `::ffff:1.2.3.4` parses as an IPv6 literal, but it is stored as
`1.2.3.0`, the /24 mask of the embedded IPv4 address, and not as `::`, the text of the
/48 prefix of the parsed address. -/
theorem c5_mapped_ipv6_masked_as_ipv4 :
    net.parseIPv6 (go "::ffff:1.2.3.4") = some (examples.mappedAddr, [])
    ∧ net.ParseIP (go "::ffff:1.2.3.4") = some examples.mappedAddr
    ∧ tracking.anonymize (go "::ffff:1.2.3.4") = go "1.2.3.0"
    ∧ net.IP.String (examples.mappedAddr.take 6 ++ List.replicate 10 0) = go "::"
    ∧ tracking.anonymize (go "::ffff:1.2.3.4")
        ≠ net.IP.String (examples.mappedAddr.take 6 ++ List.replicate 10 0)
    ∧ (tracking.ExtractNetworkInfo (go "::ffff:1.2.3.4")).1 = go "1.2.3.0" := by
  decide

/-- An IPv6 literal that is not IPv4-mapped is stored as its /48 prefix:
`2001:db8:85a3:8d3:1319:8a2e:370:7348` becomes `2001:db8:85a3::`. -/
theorem anonymize_ipv6_example :
    tracking.anonymize (go "2001:db8:85a3:8d3:1319:8a2e:370:7348") = go "2001:db8:85a3::" := by
  decide

/-! ## Query strings: escaping, parsing and encoding -/

/-- The sixteen upper-case hexadecimal digits are hexadecimal digits, decode to their
index, and are none of `&`, `;`, `=`. -/
theorem upperhex_spec : ∀ n : Fin 16,
    url.ishex (url.upperhex n.val) = true ∧ url.unhex (url.upperhex n.val) = n.val
      ∧ url.upperhex n.val ≠ ch '&' ∧ url.upperhex n.val ≠ ch ';'
      ∧ url.upperhex n.val ≠ ch '=' := by
  decide

/-- `isCh` decides equality with the byte of the character. -/
theorem isCh_iff (c : Byte) (x : Char) (hx : x.toNat < 256) : isCh c x = true ↔ c = ch x := by
  simp only [isCh, beq_iff_eq, ch, Fin.ext_iff, Fin.ofNat, Nat.mod_eq_of_lt hx]

/-- One query-escaped byte, as the source's last loop writes it. -/
theorem escape_singleton (c : Byte) :
    url.escape [c] url.encoding.encodeQueryComponent
      = if isCh c ' ' = true then [ch '+']
        else if url.shouldEscape c url.encoding.encodeQueryComponent = true then
          [ch '%', url.upperhex (c.val / 16), url.upperhex (c.val % 16)]
        else [c] := by
  simp [url.escape]

/-- Escaping distributes over the bytes of the string. -/
theorem escape_cons (c : Byte) (s : GoString) (mode : url.encoding) :
    url.escape (c :: s) mode = url.escape [c] mode ++ url.escape s mode := by
  simp [url.escape]

/-- The three shapes of one query-escaped byte: kept, a space written as `+`, or a
`%XX` escape whose digits decode to the byte. -/
theorem escape_byte_cases (c : Byte) :
    (url.escape [c] url.encoding.encodeQueryComponent = [c]
        ∧ isCh c '%' = false ∧ isCh c '+' = false)
    ∨ (c = ch ' ' ∧ url.escape [c] url.encoding.encodeQueryComponent = [ch '+'])
    ∨ (url.escape [c] url.encoding.encodeQueryComponent
          = [ch '%', url.upperhex (c.val / 16), url.upperhex (c.val % 16)]
        ∧ url.ishex (url.upperhex (c.val / 16)) = true
        ∧ url.ishex (url.upperhex (c.val % 16)) = true
        ∧ (Fin.ofNat (url.unhex (url.upperhex (c.val / 16)) * 16
              + url.unhex (url.upperhex (c.val % 16))) : Byte) = c) := by
  rw [escape_singleton]
  by_cases h1 : isCh c ' ' = true
  · right; left
    exact ⟨(isCh_iff c ' ' (by decide)).mp h1, by simp [h1]⟩
  · by_cases h2 : url.shouldEscape c url.encoding.encodeQueryComponent = true
    · right; right
      have hhi := upperhex_spec ⟨c.val / 16, by omega⟩
      have hlo := upperhex_spec ⟨c.val % 16, by omega⟩
      simp only at hhi hlo
      refine ⟨by simp [h1, h2], hhi.1, hlo.1, ?_⟩
      rw [hhi.2.1, hlo.2.1]
      apply Fin.ext
      simp only [Fin.ofNat, Nat.div_add_mod']
      omega
    · left
      refine ⟨by simp [h1, h2], ?_, ?_⟩
      · cases h : isCh c '%'
        · rfl
        · have := (isCh_iff c '%' (by decide)).mp h
          subst this
          exact absurd (by decide) h2
      · cases h : isCh c '+'
        · rfl
        · have := (isCh_iff c '+' (by decide)).mp h
          subst this
          exact absurd (by decide) h2

/-- A query-escaped byte contains none of `&`, `;`, `=`. -/
theorem escape_byte_clean (c : Byte) :
    ∀ x ∈ url.escape [c] url.encoding.encodeQueryComponent,
      x ≠ ch '&' ∧ x ≠ ch ';' ∧ x ≠ ch '=' := by
  rw [escape_singleton]
  intro x hx
  by_cases h1 : isCh c ' ' = true
  · rw [if_pos h1, List.mem_singleton] at hx
    rw [hx]; decide
  · rw [if_neg h1] at hx
    by_cases h2 : url.shouldEscape c url.encoding.encodeQueryComponent = true
    · have hhi := upperhex_spec ⟨c.val / 16, by omega⟩
      have hlo := upperhex_spec ⟨c.val % 16, by omega⟩
      simp only at hhi hlo
      rw [if_pos h2] at hx
      simp only [List.mem_cons, List.mem_singleton, List.not_mem_nil, or_false] at hx
      cases hx with
      | inl hx => rw [hx]; decide
      | inr hx =>
        cases hx with
        | inl hx => rw [hx]; exact hhi.2.2
        | inr hx => rw [hx]; exact hlo.2.2
    · rw [if_neg h2, List.mem_singleton] at hx
      rw [hx]
      refine ⟨?_, ?_, ?_⟩ <;> intro h <;> rw [h] at h2 <;> exact h2 (by decide)

/-- A query-escaped string contains none of `&`, `;`, `=`. -/
theorem escape_clean (s : GoString) :
    ∀ x ∈ url.QueryEscape s, x ≠ ch '&' ∧ x ≠ ch ';' ∧ x ≠ ch '=' := by
  induction s with
  | nil => intro x hx; simp [url.QueryEscape, url.escape] at hx
  | cons c t ih =>
    intro x hx
    rw [url.QueryEscape, escape_cons, List.mem_append] at hx
    rcases hx with hx | hx
    · exact escape_byte_clean c x hx
    · exact ih x hx

/-- Unescaping a byte that is neither `%` nor `+` keeps it. -/
theorem unescape_cons_plain (c : Byte) (s : GoString) (h1 : isCh c '%' = false)
    (h2 : isCh c '+' = false) :
    url.unescape (c :: s) url.encoding.encodeQueryComponent
      = (url.unescape s url.encoding.encodeQueryComponent).map (fun t => c :: t) := by
  rw [url.unescape.eq_def]
  simp [h1, h2]

/-- Unescaping `+` in a query component gives a space. -/
theorem unescape_cons_plus (s : GoString) :
    url.unescape (ch '+' :: s) url.encoding.encodeQueryComponent
      = (url.unescape s url.encoding.encodeQueryComponent).map (fun t => ch ' ' :: t) := by
  rw [url.unescape.eq_def]
  simp only
  rw [if_neg (by decide), if_pos (by decide)]
  simp

/-- Unescaping `%XX` in a query component gives the byte with those digits. -/
theorem unescape_cons_pct (a b : Byte) (s : GoString) (h1 : url.ishex a = true)
    (h2 : url.ishex b = true) :
    url.unescape (ch '%' :: a :: b :: s) url.encoding.encodeQueryComponent
      = (url.unescape s url.encoding.encodeQueryComponent).map
          (fun t => (Fin.ofNat (url.unhex a * 16 + url.unhex b) : Byte) :: t) := by
  rw [url.unescape.eq_def]
  simp only
  rw [if_pos (by decide)]
  simp [h1, h2]

/-- Unescaping undoes one escaped byte at the front of a string. -/
theorem unescape_escape_byte (c : Byte) (rest : GoString) :
    url.unescape (url.escape [c] url.encoding.encodeQueryComponent ++ rest)
        url.encoding.encodeQueryComponent
      = (url.unescape rest url.encoding.encodeQueryComponent).map (fun t => c :: t) := by
  rcases escape_byte_cases c with ⟨h, h1, h2⟩ | ⟨h, h1⟩ | ⟨h, h1, h2, h3⟩
  · rw [h]
    exact unescape_cons_plain c rest h1 h2
  · rw [h1, h]
    exact unescape_cons_plus rest
  · rw [h]
    simp only [List.cons_append, List.nil_append]
    rw [unescape_cons_pct _ _ rest h1 h2, h3]

/-- `QueryUnescape` undoes `QueryEscape`. -/
theorem queryUnescape_queryEscape (s : GoString) :
    url.QueryUnescape (url.QueryEscape s) = some s := by
  induction s with
  | nil => simp [url.QueryUnescape, url.QueryEscape, url.escape, url.unescape]
  | cons c t ih =>
    rw [url.QueryUnescape, url.QueryEscape, escape_cons, unescape_escape_byte]
    rw [url.QueryUnescape, url.QueryEscape] at ih
    rw [ih]; rfl


/-- Cutting at a separator that first occurs right after `s`. -/
theorem cut_append (sep : Byte) (s t : GoString) (h : sep ∉ s) :
    strings.Cut (s ++ sep :: t) sep = (s, t, true) := by
  induction s with
  | nil => simp [strings.Cut]
  | cons c r ih =>
    have hc : c ≠ sep := fun e => h (by simp [e])
    have hr : sep ∉ r := fun e => h (List.mem_cons_of_mem _ e)
    simp [strings.Cut, hc, ih hr]

/-- Cutting at a separator that does not occur. -/
theorem cut_absent (sep : Byte) (s : GoString) (h : sep ∉ s) :
    strings.Cut s sep = (s, [], false) := by
  induction s with
  | nil => simp [strings.Cut]
  | cons c r ih =>
    have hc : c ≠ sep := fun e => h (by simp [e])
    have hr : sep ∉ r := fun e => h (List.mem_cons_of_mem _ e)
    simp [strings.Cut, hc, ih hr]

/-- `strings.Contains` with a one-byte pattern is membership of the byte. -/
theorem contains_byte (s : GoString) (c : Byte) :
    strings.Contains s [c] = true ↔ c ∈ s := by
  induction s with
  | nil => simp [strings.Contains]
  | cons x r ih =>
    simp only [strings.Contains, strings.HasPrefix, Bool.and_true, Bool.or_eq_true, beq_iff_eq,
      ih, List.mem_cons]
    constructor
    · rintro (h | h)
      · exact Or.inl h.symm
      · exact Or.inr h
    · rintro (h | h)
      · exact Or.inl h.symm
      · exact Or.inr h

/-- The text of a pair has no `&`. -/
theorem encodePair_no_amp (p : GoString × GoString) : ch '&' ∉ url.encodePair p := by
  intro h
  simp only [url.encodePair, List.mem_append] at h
  rcases h with (h | h) | h
  · exact (escape_clean p.1 _ h).1 rfl
  · revert h; decide
  · exact (escape_clean p.2 _ h).1 rfl

/-- The text of a pair is not empty. -/
theorem encodePair_ne_nil (p : GoString × GoString) : url.encodePair p ≠ [] := by
  intro h
  have : ch '=' ∈ url.encodePair p := by
    simp only [url.encodePair, List.mem_append]
    exact Or.inl (Or.inr (by decide))
  rw [h] at this
  cases this

/-- One round of `parseQuery` on the text of a pair appends the pair's value to the
pair's key. -/
theorem parseSegment_encodePair (m : url.Values) (p : GoString × GoString) :
    url.parseSegment m (url.encodePair p) = m.add p := by
  have h1 : strings.Contains (url.encodePair p) (go ";") = false := by
    cases h : strings.Contains (url.encodePair p) (go ";")
    · rfl
    · have hm : ch ';' ∈ url.encodePair p := (contains_byte _ _).mp h
      simp only [url.encodePair, List.mem_append] at hm
      rcases hm with (hm | hm) | hm
      · exact absurd rfl (escape_clean p.1 _ hm).2.1
      · revert hm; decide
      · exact absurd rfl (escape_clean p.2 _ hm).2.1
  have h2 : (url.encodePair p).isEmpty = false := by
    cases h : url.encodePair p
    · exact absurd h (encodePair_ne_nil p)
    · rfl
  have h3 : strings.Cut (url.encodePair p) (ch '=') = (url.QueryEscape p.1, url.QueryEscape p.2, true) := by
    have : url.encodePair p = url.QueryEscape p.1 ++ ch '=' :: url.QueryEscape p.2 := by
      simp only [url.encodePair, List.append_assoc]
      rfl
    rw [this]
    exact cut_append _ _ _ (fun h => (escape_clean p.1 _ h).2.2 rfl)
  simp only [url.parseSegment, h1, h2, h3, Bool.false_eq_true, if_false,
    queryUnescape_queryEscape, url.Values.add]

/-- `parseQuery` on an empty query returns the map. -/
theorem parseQuery_nil (fuel : Nat) (m : url.Values) : url.parseQuery fuel m [] = m := by
  cases fuel <;> simp [url.parseQuery]

/-- `parseQuery` on segments joined by `&` runs one round per segment. -/
theorem parseQuery_segments (segs : List GoString) :
    ∀ (s : GoString) (m : url.Values) (fuel : Nat),
      s ≠ [] → ch '&' ∉ s → (∀ t ∈ segs, t ≠ [] ∧ ch '&' ∉ t) →
      (s ++ segs.flatMap (fun t => ch '&' :: t)).length ≤ fuel →
      url.parseQuery fuel m (s ++ segs.flatMap (fun t => ch '&' :: t))
        = segs.foldl url.parseSegment (url.parseSegment m s) := by
  induction segs with
  | nil =>
    intro s m fuel hs hamp _ hfuel
    simp only [List.flatMap_nil, List.append_nil] at hfuel ⊢
    cases fuel with
    | zero =>
      have : s = [] := List.length_eq_zero.mp (Nat.le_zero.mp hfuel)
      exact absurd this hs
    | succ f =>
      have he : s.isEmpty = false := by cases s <;> simp_all
      simp only [url.parseQuery, he, Bool.false_eq_true, if_false, cut_absent _ _ hamp,
        parseQuery_nil, List.foldl_nil]
  | cons t rest ih =>
    intro s m fuel hs hamp hsegs hfuel
    simp only [List.flatMap_cons, List.cons_append] at hfuel ⊢
    cases fuel with
    | zero =>
      simp only [List.length_append, List.length_cons] at hfuel
      omega
    | succ f =>
      have he : (s ++ ch '&' :: (t ++ rest.flatMap (fun t => ch '&' :: t))).isEmpty = false := by
        cases s <;> simp_all
      simp only [url.parseQuery, he, Bool.false_eq_true, if_false, cut_append _ _ _ hamp,
        List.foldl_cons]
      apply ih t _ f (hsegs t (List.mem_cons_self _ _)).1 (hsegs t (List.mem_cons_self _ _)).2
        (fun u hu => hsegs u (List.mem_cons_of_mem _ hu))
      simp only [List.length_append, List.length_cons] at hfuel ⊢
      omega

/-- The buffer `Values.Encode` builds from a list of pairs, starting from a non-empty
buffer: each pair is written after a `&`. -/
theorem encode_fold (pairs : List (GoString × GoString)) :
    ∀ buf : GoString, buf ≠ [] →
      pairs.foldl
          (fun buf p =>
            (if buf.length > 0 then buf ++ go "&" else buf)
              ++ url.QueryEscape p.1 ++ go "=" ++ url.QueryEscape p.2)
          buf
        = buf ++ pairs.flatMap (fun p => ch '&' :: url.encodePair p) := by
  induction pairs with
  | nil => intro buf _; simp
  | cons p rest ih =>
    intro buf hb
    have hlen : buf.length > 0 := List.length_pos.mpr hb
    simp only [List.foldl_cons, hlen, if_true, List.flatMap_cons]
    rw [ih _ (by simp [hb])]
    have : go "&" = [ch '&'] := rfl
    simp only [url.encodePair, this, List.append_assoc, List.singleton_append, List.cons_append,
      List.nil_append]

/-- A fold over keys and, inside, over the values of each key is a fold over the
flattened list of pairs. -/
theorem foldl_pairs {β : Type} (F : β → GoString × GoString → β) (g : GoString → List GoString)
    (keys : List GoString) :
    ∀ b : β,
      (keys.flatMap (fun k => (g k).map (fun x => (k, x)))).foldl F b
        = keys.foldl (fun buf k => (g k).foldl (fun buf x => F buf (k, x)) buf) b := by
  induction keys with
  | nil => intro b; rfl
  | cons k rest ih =>
    intro b
    simp only [List.flatMap_cons, List.foldl_append, List.foldl_map, List.foldl_cons, ih]

/-- `Values.Encode` writes the pairs of the map joined by `&`. -/
theorem encode_eq (v : url.Values) :
    v.Encode =
      match v.pairs with
      | [] => []
      | p :: rest => url.encodePair p ++ rest.flatMap (fun q => ch '&' :: url.encodePair q) := by
  have hfold : v.Encode = v.pairs.foldl
      (fun buf p =>
        (if buf.length > 0 then buf ++ go "&" else buf)
          ++ url.QueryEscape p.1 ++ go "=" ++ url.QueryEscape p.2) [] := by
    simp only [url.Values.Encode, url.Values.pairs, foldl_pairs]
  rw [hfold]
  cases hp : v.pairs with
  | nil => rfl
  | cons p rest =>
    simp only [List.foldl_cons, List.length_nil, gt_iff_lt, Nat.lt_irrefl, if_false,
      List.nil_append]
    exact encode_fold rest _ (encodePair_ne_nil p)

/-- Parsing what `Values.Encode` wrote adds the pairs of the map, in order, to the
empty map. -/
theorem parseQuery_encode (v : url.Values) :
    url.ParseQuery v.Encode = v.pairs.foldl url.Values.add [] := by
  rw [encode_eq]
  cases hp : v.pairs with
  | nil => rfl
  | cons p rest =>
    simp only [url.ParseQuery, List.foldl_cons]
    have hmap : rest.flatMap (fun q => ch '&' :: url.encodePair q)
        = (rest.map url.encodePair).flatMap (fun t => ch '&' :: t) := by
      simp [List.flatMap_map]
    rw [hmap, parseQuery_segments (rest.map url.encodePair) (url.encodePair p) [] _
      (encodePair_ne_nil p) (encodePair_no_amp p) ?_ (Nat.le_refl _)]
    · rw [List.foldl_map, parseSegment_encodePair]
      congr 1
      funext m q
      exact parseSegment_encodePair m q
    · intro t ht
      obtain ⟨q, _, rfl⟩ := List.mem_map.mp ht
      exact ⟨encodePair_ne_nil q, encodePair_no_amp q⟩

/-- Reading a key of a map after filtering out another key. -/
theorem index_filter_ne (m : url.Values) (k k2 : GoString) (h : k2 ≠ k) :
    url.Values.index (m.filter (fun e => decide (e.1 ≠ k))) k2 = url.Values.index m k2 := by
  simp only [ne_eq, decide_not]
  induction m with
  | nil => rfl
  | cons e rest ih =>
    obtain ⟨a, vs⟩ := e
    by_cases ha : a = k
    · subst ha
      have : a ≠ k2 := fun e => h e.symm
      simp [url.Values.index, this, ih]
    · by_cases hk : a = k2
      · subst hk
        simp [url.Values.index, ha]
      · simp [url.Values.index, ha, hk, ih]

/-- Reading after a map write. -/
theorem index_assign (m : url.Values) (k : GoString) (vs : List GoString) (k2 : GoString) :
    (m.assign k vs).index k2 = if k2 = k then vs else m.index k2 := by
  by_cases h : k2 = k
  · subst h; simp [url.Values.assign, url.Values.index]
  · have h2 : k ≠ k2 := fun e => h e.symm
    have h3 := index_filter_ne m k k2 h
    simp only [url.Values.assign, url.Values.index, h, h2, if_false, h3]

/-- Reading a key that the map does not hold. -/
theorem index_absent (m : url.Values) (k : GoString) (h : k ∉ m.map (fun e => e.1)) :
    m.index k = [] := by
  induction m with
  | nil => rfl
  | cons e rest ih =>
    obtain ⟨a, vs⟩ := e
    simp only [List.map_cons, List.mem_cons, not_or] at h
    have : a ≠ k := fun e => h.1 e.symm
    simp [url.Values.index, this, ih h.2]

/-- Reading a key after adding a list of pairs: the values already there, followed by
the values of the pairs with that key, in order. -/
theorem index_foldl_add (pairs : List (GoString × GoString)) (k : GoString) :
    ∀ m : url.Values,
      (pairs.foldl url.Values.add m).index k
        = m.index k ++ (pairs.filter (fun p => decide (p.1 = k))).map (fun p => p.2) := by
  induction pairs with
  | nil => intro m; simp
  | cons p rest ih =>
    intro m
    obtain ⟨a, x⟩ := p
    rw [List.foldl_cons, ih, url.Values.add, index_assign]
    by_cases h : a = k
    · subst h
      simp
    · have h2 : ¬ k = a := fun e => h e.symm
      simp [h, h2]

/-- Among the pairs of consecutive key groups, those with key `k` carry the values of
`k` if `k` is one of the keys, and there are none otherwise. -/
theorem filter_groups (g : GoString → List GoString) (k : GoString) (keys : List GoString)
    (hnd : keys.Nodup) :
    ((keys.flatMap (fun a => (g a).map (fun x => (a, x)))).filter
        (fun p => decide (p.1 = k))).map (fun p => p.2)
      = if k ∈ keys then g k else [] := by
  induction keys with
  | nil => rfl
  | cons a rest ih =>
    have hnd2 := (List.nodup_cons.mp hnd)
    simp only [List.flatMap_cons, List.filter_append, List.map_append, ih hnd2.2]
    by_cases ha : a = k
    · subst ha
      have hnot : a ∉ rest := hnd2.1
      simp [List.filter_map, hnot, Function.comp_def]
    · have h2 : ¬ k = a := fun e => ha e.symm
      simp [List.filter_map, ha, h2, Function.comp_def]

/-- The sorted keys are the keys. -/
theorem sortStrings_perm (keys : List GoString) : (url.sortStrings keys).Perm keys :=
  List.perm_insertionSort _ keys

/-- Reading a key from the pairs of a map whose keys are distinct gives the values the
map holds for the key. -/
theorem pairs_index (v : url.Values) (hnd : (v.map (fun e => e.1)).Nodup) (k : GoString) :
    (v.pairs.filter (fun p => decide (p.1 = k))).map (fun p => p.2) = v.index k := by
  rw [url.Values.pairs, filter_groups _ k _ ((sortStrings_perm _).nodup_iff.mpr hnd)]
  by_cases hk : k ∈ url.sortStrings (v.map (fun e => e.1))
  · simp [hk]
  · have : k ∉ v.map (fun e => e.1) := fun h => hk ((sortStrings_perm _).mem_iff.mpr h)
    simp [hk, index_absent v k this]

/-- Parsing what `Values.Encode` wrote from a map with distinct keys gives back, for
every key, the values the map holds for it. -/
theorem parse_encode_index (v : url.Values) (hnd : (v.map (fun e => e.1)).Nodup)
    (k : GoString) :
    (url.ParseQuery v.Encode).index k = v.index k := by
  rw [parseQuery_encode, index_foldl_add, pairs_index v hnd k]
  rfl

/-- A map write keeps the keys distinct. -/
theorem assign_nodup (m : url.Values) (k : GoString) (vs : List GoString)
    (hnd : (m.map (fun e => e.1)).Nodup) :
    ((m.assign k vs).map (fun e => e.1)).Nodup := by
  simp only [url.Values.assign, List.map_cons, List.nodup_cons]
  constructor
  · intro h
    obtain ⟨e, he, hk⟩ := List.mem_map.mp h
    have := (List.mem_filter.mp he).2
    simp only [decide_eq_true_eq] at this
    exact this hk
  · exact (List.filter_sublist _).map _ |>.nodup hnd

/-- The keys of the map after the three `query.Set` calls are distinct, and reading a
key gives the mapping's value for a UTM key whose field is non-empty and the parsed
value list of the destination otherwise. -/
theorem set_chain_spec (m : models.URLMapping) (q0 : url.Values)
    (hnd : (q0.map (fun e => e.1)).Nodup) :
    ((m.setUTM q0).map (fun e => e.1)).Nodup
    ∧ ∀ k : GoString,
        (m.setUTM q0).index k =
          if k = go "utm_source" ∧ m.UTMSource ≠ [] then [m.UTMSource]
          else if k = go "utm_medium" ∧ m.UTMMedium ≠ [] then [m.UTMMedium]
          else if k = go "utm_campaign" ∧ m.UTMCampaign ≠ [] then [m.UTMCampaign]
          else q0.index k := by
  obtain ⟨q1, hq1⟩ : ∃ q1, q1 = if m.UTMSource != [] then q0.Set (go "utm_source") m.UTMSource
      else q0 := ⟨_, rfl⟩
  obtain ⟨q2, hq2⟩ : ∃ q2, q2 = if m.UTMMedium != [] then q1.Set (go "utm_medium") m.UTMMedium
      else q1 := ⟨_, rfl⟩
  obtain ⟨q3, hq3⟩ : ∃ q3, q3 = if m.UTMCampaign != [] then
      q2.Set (go "utm_campaign") m.UTMCampaign else q2 := ⟨_, rfl⟩
  have hset : m.setUTM q0 = q3 := by
    rw [hq3, hq2, hq1]; rfl
  rw [hset]
  have n1 : (q1.map (fun e => e.1)).Nodup := by
    rw [hq1]; split_ifs
    · exact assign_nodup _ _ _ hnd
    · exact hnd
  have n2 : (q2.map (fun e => e.1)).Nodup := by
    rw [hq2]; split_ifs
    · exact assign_nodup _ _ _ n1
    · exact n1
  have n3 : (q3.map (fun e => e.1)).Nodup := by
    rw [hq3]; split_ifs
    · exact assign_nodup _ _ _ n2
    · exact n2
  refine ⟨n3, fun k => ?_⟩
  have e1 : q1.index k = if k = go "utm_source" ∧ m.UTMSource ≠ [] then [m.UTMSource]
      else q0.index k := by
    rw [hq1]
    by_cases h : m.UTMSource = []
    · simp [h]
    · simp only [bne_iff_ne, ne_eq, h, not_false_eq_true, if_true, url.Values.Set,
        index_assign, and_true]
  have e2 : q2.index k = if k = go "utm_medium" ∧ m.UTMMedium ≠ [] then [m.UTMMedium]
      else q1.index k := by
    rw [hq2]
    by_cases h : m.UTMMedium = []
    · simp [h]
    · simp only [bne_iff_ne, ne_eq, h, not_false_eq_true, if_true, url.Values.Set,
        index_assign, and_true]
  have e3 : q3.index k = if k = go "utm_campaign" ∧ m.UTMCampaign ≠ [] then [m.UTMCampaign]
      else q2.index k := by
    rw [hq3]
    by_cases h : m.UTMCampaign = []
    · simp [h]
    · simp only [bne_iff_ne, ne_eq, h, not_false_eq_true, if_true, url.Values.Set,
        index_assign, and_true]
  rw [e3, e2, e1]
  have k1 : go "utm_source" ≠ go "utm_medium" := by decide
  have k2 : go "utm_source" ≠ go "utm_campaign" := by decide
  have k3 : go "utm_medium" ≠ go "utm_campaign" := by decide
  by_cases hs : k = go "utm_source"
  · subst hs
    simp [k1, k2]
  · by_cases hm : k = go "utm_medium"
    · subst hm
      simp [k3, hs]
    · simp [hs, hm]

/-- A byte of the UTM class is written unescaped in a query component. -/
theorem escape_utm_byte (c : Byte) (h : models.isUTMRune c.val = true) :
    url.escape [c] url.encoding.encodeQueryComponent = [c] := by
  rw [escape_singleton]
  have h1 : isCh c ' ' = false := by
    simp [models.isUTMRune] at h
    simp [isCh]
    omega
  have h2 : url.shouldEscape c url.encoding.encodeQueryComponent = false := by
    simp only [models.isUTMRune, Bool.or_eq_true, Bool.and_eq_true, decide_eq_true_eq,
      beq_iff_eq] at h
    unfold url.shouldEscape
    by_cases ha : (inRange 'a' 'z' c || inRange 'A' 'Z' c || inRange '0' '9' c) = true
    · rw [if_pos ha]
    · have hm1 : (url.encoding.encodeQueryComponent == url.encoding.encodeHost) = false := by
        decide
      have hm2 : (url.encoding.encodeQueryComponent == url.encoding.encodeZone) = false := by
        decide
      rw [if_neg ha]
      simp only [hm1, hm2, Bool.or_false, Bool.false_and, Bool.false_eq_true, if_false]
      have hm : oneOf ['-', '_', '.', '~'] c = true := by
        simp only [inRange, Bool.or_eq_true, Bool.and_eq_true, decide_eq_true_eq] at ha
        simp only [oneOf, isCh, List.any_cons, List.any_nil, Bool.or_false, Bool.or_eq_true,
          beq_iff_eq]
        have e1 : 'Z'.toNat = 90 := rfl
        have e2 : 'z'.toNat = 122 := rfl
        have e3 : '9'.toNat = 57 := rfl
        have e4 : '_'.toNat = 95 := rfl
        have e5 : '-'.toNat = 45 := rfl
        have e6 : 'A'.toNat = 65 := rfl
        have e7 : 'a'.toNat = 97 := rfl
        have e8 : '0'.toNat = 48 := rfl
        omega
      rw [if_pos hm]
  simp [h1, h2]

/-- A valid UTM parameter is written unescaped in a query component. -/
theorem queryEscape_utm (v : GoString) (h : models.isValidUTMParam v = true) :
    url.QueryEscape v = v := by
  have hall : ∀ b ∈ v, models.isUTMRune b.val = true := by
    simp only [models.isValidUTMParam, Bool.and_eq_true, beq_iff_eq, strings.IndexFunc] at h
    exact (indexFuncFuel_none v.length v (Nat.le_refl _)).mp h.2
  clear h
  induction v with
  | nil => rfl
  | cons c t ih =>
    rw [url.QueryEscape, escape_cons, escape_utm_byte c (hall c (List.mem_cons_self _ _))]
    rw [url.QueryEscape] at ih
    rw [ih (fun b hb => hall b (List.mem_cons_of_mem _ hb))]
    rfl

/-- With every UTM field empty or written unescaped, encoding the map the `query.Set`
calls build from an empty query gives the non-empty fields as `key=value`, joined by
`&` in alphabetical order of the keys. -/
theorem encode_setUTM (m : models.URLMapping)
    (hs : url.QueryEscape m.UTMSource = m.UTMSource)
    (hm : url.QueryEscape m.UTMMedium = m.UTMMedium)
    (hc : url.QueryEscape m.UTMCampaign = m.UTMCampaign) :
    (m.setUTM []).Encode = models.utmQuery m := by
  have k1 : go "utm_source" ≠ go "utm_medium" := by decide
  have k2 : go "utm_source" ≠ go "utm_campaign" := by decide
  have k3 : go "utm_medium" ≠ go "utm_campaign" := by decide
  have k4 : go "utm_medium" ≠ go "utm_source" := by decide
  have k5 : go "utm_campaign" ≠ go "utm_source" := by decide
  have k6 : go "utm_campaign" ≠ go "utm_medium" := by decide
  have q1 : url.QueryEscape (go "utm_source") = go "utm_source" := by decide
  have q2 : url.QueryEscape (go "utm_medium") = go "utm_medium" := by decide
  have q3 : url.QueryEscape (go "utm_campaign") = go "utm_campaign" := by decide
  have s1 : url.sortStrings [go "utm_campaign", go "utm_medium", go "utm_source"]
      = [go "utm_campaign", go "utm_medium", go "utm_source"] := by decide
  have s2 : url.sortStrings [go "utm_campaign", go "utm_medium"]
      = [go "utm_campaign", go "utm_medium"] := by decide
  have s3 : url.sortStrings [go "utm_campaign", go "utm_source"]
      = [go "utm_campaign", go "utm_source"] := by decide
  have s4 : url.sortStrings [go "utm_medium", go "utm_source"]
      = [go "utm_medium", go "utm_source"] := by decide
  have s5 : ∀ k : GoString, url.sortStrings [k] = [k] := fun k => rfl
  have a1 : ∀ v : GoString, go "utm_source" ++ (go "=" ++ v) = go "utm_source=" ++ v :=
    fun v => by rw [← List.append_assoc]; rfl
  have a2 : ∀ v : GoString, go "utm_medium" ++ (go "=" ++ v) = go "utm_medium=" ++ v :=
    fun v => by rw [← List.append_assoc]; rfl
  have a3 : ∀ v : GoString, go "utm_campaign" ++ (go "=" ++ v) = go "utm_campaign=" ++ v :=
    fun v => by rw [← List.append_assoc]; rfl
  have l1 : 0 < (go "utm_source=").length := by decide
  have l2 : 0 < (go "utm_medium=").length := by decide
  have l3 : 0 < (go "utm_campaign=").length := by decide
  by_cases e1 : m.UTMSource = [] <;> by_cases e2 : m.UTMMedium = [] <;>
    by_cases e3 : m.UTMCampaign = [] <;>
    simp [models.URLMapping.setUTM, models.utmQuery, url.Values.Encode, url.Values.Set,
      url.Values.assign, url.Values.index, e1, e2, e3, k1, k2, k3, k4, k5, k6, q1, q2, q3,
      s1, s2, s3, s4, s5, hs, hm, hc, List.intercalate, a1, a2, a3, l1, l2, l3]

/-- A mapping that passes `Validate` has each UTM field empty or valid. -/
theorem validate_ok_fields (m : models.URLMapping) (now : Time) (hv : m.Validate now = .ok ()) :
    (m.UTMSource = [] ∨ models.isValidUTMParam m.UTMSource = true)
    ∧ (m.UTMMedium = [] ∨ models.isValidUTMParam m.UTMMedium = true)
    ∧ (m.UTMCampaign = [] ∨ models.isValidUTMParam m.UTMCampaign = true) := by
  unfold models.URLMapping.Validate at hv
  split_ifs at hv with h1 h2 h3 h4 h5 h6
  simp only [Bool.and_eq_true, bne_iff_ne, ne_eq, Bool.not_eq_true', not_and,
    Bool.not_eq_false] at h3 h4 h5
  refine ⟨?_, ?_, ?_⟩
  · by_cases h : m.UTMSource = []
    · exact Or.inl h
    · exact Or.inr (h3 h)
  · by_cases h : m.UTMMedium = []
    · exact Or.inl h
    · exact Or.inr (h4 h)
  · by_cases h : m.UTMCampaign = []
    · exact Or.inl h
    · exact Or.inr (h5 h)

/-- A UTM field that is empty or valid is written unescaped. -/
theorem queryEscape_field (v : GoString) (h : v = [] ∨ models.isValidUTMParam v = true) :
    url.QueryEscape v = v := by
  rcases h with h | h
  · subst h; rfl
  · exact queryEscape_utm v h

/-- C4 (amended): for a mapping that passes `Validate` and whose destination parses
with `url.Parse` and has no query string, `BuildRedirectURL` returns the destination's
scheme, authority and path, then `?` and the non-empty UTM fields as `utm_campaign=`,
`utm_medium=`, `utm_source=` followed by the field's value character for character and
joined by `&`, then the fragment; each UTM key whose field is non-empty occurs exactly
once, and a UTM key whose field is empty does not occur. -/
theorem c4_build_redirect_url_no_query (m : models.URLMapping) (now : Time)
    (baseURL : url.URL)
    (hv : m.Validate now = .ok ())
    (hp : url.Parse m.DestinationURL = some baseURL)
    (hq : baseURL.RawQuery = []) :
    m.BuildRedirectURL
      = baseURL.stringHead
          ++ (if baseURL.ForceQuery || !(models.utmQuery m).isEmpty then
                go "?" ++ models.utmQuery m else [])
          ++ (if !baseURL.Fragment.isEmpty then go "#" ++ baseURL.EscapedFragment else [])
    ∧ (url.ParseQuery (models.utmQuery m)).index (go "utm_source")
        = (if m.UTMSource = [] then [] else [m.UTMSource])
    ∧ (url.ParseQuery (models.utmQuery m)).index (go "utm_medium")
        = (if m.UTMMedium = [] then [] else [m.UTMMedium])
    ∧ (url.ParseQuery (models.utmQuery m)).index (go "utm_campaign")
        = (if m.UTMCampaign = [] then [] else [m.UTMCampaign]) := by
  have hf := validate_ok_fields m now hv
  have henc := encode_setUTM m (queryEscape_field _ hf.1) (queryEscape_field _ hf.2.1)
    (queryEscape_field _ hf.2.2)
  have hquery : baseURL.Query = [] := by rw [url.URL.Query, hq]; rfl
  have hs := set_chain_spec m [] List.nodup_nil
  have hidx : ∀ k, (url.ParseQuery (models.utmQuery m)).index k = (m.setUTM []).index k := by
    intro k
    rw [← henc]
    exact parse_encode_index _ hs.1 k
  have k1 : go "utm_source" ≠ go "utm_medium" := by decide
  have k2 : go "utm_source" ≠ go "utm_campaign" := by decide
  have k3 : go "utm_medium" ≠ go "utm_campaign" := by decide
  have k4 : go "utm_medium" ≠ go "utm_source" := by decide
  have k5 : go "utm_campaign" ≠ go "utm_source" := by decide
  have k6 : go "utm_campaign" ≠ go "utm_medium" := by decide
  refine ⟨?_, ?_, ?_, ?_⟩
  · simp only [models.URLMapping.BuildRedirectURL, models.URLMapping.redirectURL, hp, hquery,
      henc]
    rfl
  · rw [hidx, hs.2]
    by_cases h : m.UTMSource = [] <;> simp [h, k1, k2, url.Values.index]
  · rw [hidx, hs.2]
    by_cases h : m.UTMMedium = [] <;> simp [h, k3, k4, url.Values.index]
  · rw [hidx, hs.2]
    by_cases h : m.UTMCampaign = [] <;> simp [h, k5, k6, url.Values.index]

/-- C4 (amended) at the mapping `promo`. -/
theorem c4_build_redirect_url_no_query_witness :
    examples.promo.BuildRedirectURL
      = examples.promoBase.stringHead
          ++ (if examples.promoBase.ForceQuery || !(models.utmQuery examples.promo).isEmpty then
                go "?" ++ models.utmQuery examples.promo else [])
          ++ (if !examples.promoBase.Fragment.isEmpty then
                go "#" ++ examples.promoBase.EscapedFragment else [])
    ∧ (url.ParseQuery (models.utmQuery examples.promo)).index (go "utm_source")
        = (if examples.promo.UTMSource = [] then [] else [examples.promo.UTMSource])
    ∧ (url.ParseQuery (models.utmQuery examples.promo)).index (go "utm_medium")
        = (if examples.promo.UTMMedium = [] then [] else [examples.promo.UTMMedium])
    ∧ (url.ParseQuery (models.utmQuery examples.promo)).index (go "utm_campaign")
        = (if examples.promo.UTMCampaign = [] then [] else [examples.promo.UTMCampaign]) :=
  c4_build_redirect_url_no_query examples.promo 7 examples.promoBase (by decide) (by decide)
    (by decide)

/-- The text `BuildRedirectURL` returns for the mapping `promo`. -/
theorem build_redirect_url_promo :
    examples.promo.BuildRedirectURL
      = go "https://example.com/landing?utm_campaign=spring&utm_medium=email&utm_source=newsletter" := by
  decide

/-- C4 (counterexample): the mapping passes `Validate` and its destination
`mailto:x#%zz` has no query string, but `url.Parse` rejects the malformed escape in the
fragment, so `BuildRedirectURL` returns the destination unchanged: `utm_source` does
not occur although the source field is `newsletter`. -/
theorem c4_unparsable_destination_unchanged :
    examples.opaqueDest.Validate 7 = .ok ()
    ∧ strings.Contains examples.opaqueDest.DestinationURL (go "?") = false
    ∧ examples.opaqueDest.UTMSource = go "newsletter"
    ∧ url.Parse examples.opaqueDest.DestinationURL = none
    ∧ examples.opaqueDest.BuildRedirectURL = go "mailto:x#%zz"
    ∧ strings.Contains examples.opaqueDest.BuildRedirectURL (go "utm_source") = false := by
  decide

/-! ## Edge Proxy -/

end UTMTracker
